import Mathlib

/-!
Verification development for the stock-sentiment ETL pipeline
(`Extract/stock_extractor.py`, `Transform/stock_transformer.py`,
`Load/stock_loader.py`).

The pandas `DataFrame` is modelled as a rectangular record table: a header
of column names plus a list of rows, each row carrying its pandas index
label and a list of cells.  A cell is either a null marker (`NaN`/`NaT`),
an integer, a string, or a calendar date (`datetime64` restricted to the
year/month/day components actually used by the code).  Floating point
cells are not modelled: the dataset's only numeric column is the 0/1
`label` column.  Console printing and the human-readable transformation
log are observability only and are not modelled.  External file-system
effects (CSV/Parquet/SQLite writes, `pd.read_csv`) are abstracted as
outcome-valued inputs, so that the control flow of the Loader and the
Extractor — which is what the claims are about — is modelled exactly.
-/

/-- A single table cell: pandas `NaN`/`NaT`, an integer, a string, or a
`datetime64` value restricted to its year/month/day components. -/
inductive Cell
  | null
  | int (n : Int)
  | str (s : String)
  | date (y m d : Nat)
deriving DecidableEq, Repr

/-- A table row: its pandas index label plus the cell of every column. -/
structure Row where
  idx : Nat
  cells : List Cell
deriving DecidableEq, Repr

/-- The record table: ordered column names plus rows. -/
structure DataFrame where
  header : List String
  rows : List Row
deriving DecidableEq, Repr

deriving instance DecidableEq for Except

/-- pandas `DataFrame.copy()` produces an independent deep copy; with the
pure value semantics of this embedding that is the identity. -/
def DataFrame.copy (df : DataFrame) : DataFrame := df

/-! ### Character-list string helpers

`str.strip` / `str.lower` / `str.replace` from the source are modelled on
the underlying character lists (ASCII whitespace and ASCII case, which is
what the dataset's column names use). -/

/-- ASCII whitespace, as stripped by `str.strip()`. -/
def isWsChar (c : Char) : Bool :=
  c == ' ' || c == '\t' || c == '\n' || c == '\r'

/-- `str.strip()`: drop leading and trailing whitespace. -/
def trimChars (l : List Char) : List Char :=
  ((l.dropWhile isWsChar).reverse.dropWhile isWsChar).reverse

/-- ASCII `str.lower()` on one character. -/
def lowerChar (c : Char) : Char :=
  if 'A' ≤ c ∧ c ≤ 'Z' then Char.ofNat (c.toNat + 32) else c

/-- Single-character `str.replace(a, b)` (the source only replaces the
one-character patterns `' '` and `'-'`, for which substring replacement
coincides with a character map). -/
def replChar (a b : Char) (l : List Char) : List Char :=
  l.map (fun c => if c == a then b else c)

/-- Lexicographic comparison of character lists (Python string `<=`). -/
def charsLe : List Char → List Char → Bool
  | [], _ => true
  | _ :: _, [] => false
  | a :: as, b :: bs =>
      if a.toNat < b.toNat then true
      else if b.toNat < a.toNat then false
      else charsLe as bs

/-- Split a character list on `'-'` (used by the ISO date parser). -/
def splitOnDash : List Char → List (List Char)
  | [] => [[]]
  | c :: cs =>
      let r := splitOnDash cs
      if c == '-' then [] :: r
      else
        match r with
        | [] => [[c]]
        | g :: gs => (c :: g) :: gs

/-- Parse a nonempty all-digit character list as a natural number. -/
def digitsToNat (l : List Char) : Option Nat :=
  if l ≠ [] ∧ l.all Char.isDigit then
    some (l.foldl (fun a c => a * 10 + (c.toNat - 48)) 0)
  else none

/-- Leap-year test (Gregorian). -/
def isLeapYear (y : Nat) : Bool :=
  (y % 4 == 0 && y % 100 != 0) || y % 400 == 0

/-- Days in a month. -/
def daysInMonth (y m : Nat) : Nat :=
  [31, if isLeapYear y then 29 else 28, 31, 30, 31, 30, 31, 31, 30, 31, 30,
    31].getD (m - 1) 0

/-- `pd.to_datetime` on one string, restricted to the ISO `YYYY-MM-DD`
layout of the dataset's date column: year, month and day fields with a
calendar-validity check.  Anything else is unparseable. -/
def parseDate (s : String) : Option (Nat × Nat × Nat) :=
  match (splitOnDash s.data).map digitsToNat with
  | [some y, some m, some d] =>
      if 1 ≤ m ∧ m ≤ 12 ∧ 1 ≤ d ∧ d ≤ daysInMonth y m then some (y, m, d)
      else none
  | _ => none

/-- Sakamoto's day-of-week table. -/
def sakamotoTable : List Nat := [0, 3, 2, 5, 0, 3, 5, 1, 4, 6, 2, 4]

/-- Day of week with Sunday = 0 (Sakamoto's method). -/
def dayOfWeekSun0 (y m d : Nat) : Nat :=
  let y' := if m < 3 then y - 1 else y
  (y' + y' / 4 - y' / 100 + y' / 400 + sakamotoTable.getD (m - 1) 0 + d) % 7

/-- pandas `Series.dt.dayofweek`: Monday = 0 … Sunday = 6. -/
def dayOfWeekMon0 (y m d : Nat) : Nat :=
  (dayOfWeekSun0 y m d + 6) % 7

/-- Rendering of a date cell by Python `str()` (used only when a date cell
sits in a headline column and is coerced to text). -/
def dateToString (y m d : Nat) : String :=
  toString y ++ "-" ++ toString m ++ "-" ++ toString d

/-! ### Cell-level operations -/

/-- Is this cell the null marker? -/
def isNullCell : Cell → Bool
  | .null => true
  | _ => false

/-- Rank of a cell's constructor, used to totalise the sort order across
mixed-type columns. -/
def cellRank : Cell → Nat
  | .null => 0
  | .int _ => 1
  | .str _ => 2
  | .date _ _ _ => 3

/-- Chronological comparison of two year/month/day triples. -/
def dateTripleLe (y1 m1 d1 y2 m2 d2 : Nat) : Bool :=
  decide (y1 < y2 ∨ (y1 = y2 ∧ (m1 < m2 ∨ (m1 = m2 ∧ d1 ≤ d2))))

/-- Total comparison used by `sort_values`: integers by `≤`, strings
lexicographically, dates chronologically; cells of different kinds are
ordered by constructor rank. -/
def cellLe : Cell → Cell → Bool
  | .null, .null => true
  | .int a, .int b => decide (a ≤ b)
  | .str a, .str b => charsLe a.data b.data
  | .date y1 m1 d1, .date y2 m2 d2 => dateTripleLe y1 m1 d1 y2 m2 d2
  | a, b => decide (cellRank a ≤ cellRank b)

/-- `pd.to_datetime` on one cell of the date column.  `NaN` becomes `NaT`,
dates pass through, strings must parse; the model restricts the column to
the string/date/null cells a CSV-sourced frame contains (`pd.to_datetime`
on integers would interpret them as epoch timestamps, which the model
conservatively treats as a whole-column parse failure). -/
def toDatetimeCell : Cell → Except String Cell
  | .null => .ok .null
  | .date y m d => .ok (.date y m d)
  | .str s =>
      match parseDate s with
      | some (y, m, d) => .ok (.date y m d)
      | none => .error ("could not parse date " ++ s)
  | .int _ => .error "integer cell in date column not modelled as datetime"

/-- Python `int(s)` on a canonical decimal literal: an optional minus
sign followed by digits. -/
def charsToInt (l : List Char) : Option Int :=
  match l with
  | '-' :: rest => (digitsToNat rest).map (fun n => -(n : Int))
  | _ => (digitsToNat l).map (fun n => (n : Int))

/-- `Series.astype(int)` on one cell: `NaN` raises, integers pass through,
strings must be decimal integer literals, datetimes are not modelled as
integers. -/
def astypeIntCell : Cell → Except String Cell
  | .null => .error "cannot convert NaN to int"
  | .int n => .ok (.int n)
  | .str s =>
      match charsToInt s.data with
      | some n => .ok (.int n)
      | none => .error ("invalid literal for int: " ++ s)
  | .date _ _ _ => .error "datetime cell in label column not modelled as int"

/-- `fillna('')` on one cell. -/
def fillnaEmptyCell : Cell → Cell
  | .null => .str ""
  | c => c

/-- `astype(str)` on one cell (`str(NaN)` is the literal `"nan"`). -/
def astypeStrCell : Cell → Cell
  | .null => .str "nan"
  | .int n => .str (toString n)
  | .str s => .str s
  | .date y m d => .str (dateToString y m d)

/-- `Series.replace('nan', '')`: exact whole-value replacement. -/
def replaceNanCell : Cell → Cell
  | .str s => if s == "nan" then .str "" else .str s
  | c => c

/-- The source's three-statement headline coercion
(`fillna('')` then `astype(str)` then `replace('nan','')`) fused into one
per-cell function. -/
def topConvertCell (c : Cell) : Cell :=
  replaceNanCell (astypeStrCell (fillnaEmptyCell c))

/-- `Series.str.strip()` on one cell: strings are stripped, any non-string
cell becomes `NaN` (the `.str` accessor's behaviour on object columns). -/
def stripCell : Cell → Cell
  | .str s => .str (String.mk (trimChars s.data))
  | _ => .null

/-- `fillna(v)` on one cell. -/
def fillCell (v : Cell) (c : Cell) : Cell :=
  if c == Cell.null then v else c

/-- `Series.map({0: 'Negativo', 1: 'Positivo'})` on one cell: keys not in
the mapping (including `NaN`) map to `NaN`. -/
def sentimentCell (c : Cell) : Cell :=
  if c = .int 0 then .str "Negativo"
  else if c = .int 1 then .str "Positivo"
  else .null

/-- `Series.dt.year` on one cell (`NaT` gives `NaN`). -/
def yearCell : Cell → Cell
  | .date y _ _ => .int y
  | _ => .null

/-- `Series.dt.month` on one cell. -/
def monthCell : Cell → Cell
  | .date _ m _ => .int m
  | _ => .null

/-- `Series.dt.day` on one cell. -/
def dayCell : Cell → Cell
  | .date _ _ d => .int d
  | _ => .null

/-- `Series.dt.dayofweek` on one cell (Monday = 0). -/
def dowCell : Cell → Cell
  | .date y m d => .int (dayOfWeekMon0 y m d)
  | _ => .null

/-- `Series.dt.quarter` on one cell. -/
def quarterCell : Cell → Cell
  | .date _ m _ => .int ((m - 1) / 3 + 1)
  | _ => .null

/-! ### Column access on the table -/

/-- Position of the first column with the given name (pandas label-based
column lookup). -/
def colIdx (name : String) : List String → Option Nat
  | [] => none
  | h :: t => if h = name then some 0 else (colIdx name t).map (· + 1)

/-- The cell of row `r` in column position `i` (missing positions of a
ragged row read as null). -/
def cellAt (r : Row) (i : Nat) : Cell :=
  r.cells.getD i Cell.null

/-- The cells of the named column, top to bottom. -/
def getColCells (df : DataFrame) (name : String) : List Cell :=
  match colIdx name df.header with
  | some i => df.rows.map (fun r => cellAt r i)
  | none => []

/-- Column assignment `df[name] = vals`: overwrite the existing column, or
append a new one on the right (pandas semantics). -/
def setColCells (df : DataFrame) (name : String) (vals : List Cell) :
    DataFrame :=
  match colIdx name df.header with
  | some i =>
      { df with
        rows := List.zipWith (fun r v => { r with cells := r.cells.set i v })
          df.rows vals }
  | none =>
      { header := df.header ++ [name],
        rows := List.zipWith (fun r v => { r with cells := r.cells ++ [v] })
          df.rows vals }

/-- Apply a per-cell function to one column in place
(`df[name] = df[name].apply(f)` shape used for `fillna`, `astype`,
`replace` and `str.strip` on object columns). -/
def mapCol (df : DataFrame) (name : String) (f : Cell → Cell) : DataFrame :=
  match colIdx name df.header with
  | some i =>
      { df with
        rows := df.rows.map
          (fun r => { r with cells := r.cells.set i (f (cellAt r i)) }) }
  | none => df

/-- Whole-column fallible conversion: `pd.to_datetime(series)` /
`series.astype(int)` fail as soon as any cell fails, leaving nothing
converted. -/
def traverseCells (f : Cell → Except String Cell) :
    List Cell → Except String (List Cell)
  | [] => .ok []
  | c :: cs =>
      match f c, traverseCells f cs with
      | .error e, _ => .error e
      | .ok c', .ok cs' => .ok (c' :: cs')
      | .ok _, .error e => .error e

/-- `col.startswith('top')` on a column name. -/
def startsWithTop (s : String) : Bool :=
  s.data.take 3 == ['t', 'o', 'p']

/-- The headline columns: names starting with `"top"`. -/
def topCols (df : DataFrame) : List String :=
  df.header.filter startsWithTop

/-- Total null count `df.isnull().sum().sum()`. -/
def nullCountDF (df : DataFrame) : Nat :=
  (df.rows.map (fun r => r.cells.countP isNullCell)).sum

/-- A cell of numeric dtype: an integer or null. -/
def isNumericCell : Cell → Bool
  | .null => true
  | .int _ => true
  | _ => false

/-- A column has numeric dtype (`select_dtypes(include=[np.number])`) iff
every cell is an integer or null; a column holding any string or datetime
cell is object/datetime dtype. -/
def isNumericCells (cells : List Cell) : Bool :=
  cells.all isNumericCell

/-- A cell of datetime dtype: a date or `NaT`. -/
def isDatetimeCell : Cell → Bool
  | .null => true
  | .date _ _ _ => true
  | _ => false

/-- A column is datetime-like (usable through the `.dt` accessor) iff
every cell is a date or `NaT`. -/
def isDatetimeLike (cells : List Cell) : Bool :=
  cells.all isDatetimeCell

/-- The non-null integer values of a column (`Series.mode()` drops nulls
before counting). -/
def nonNullInts (cells : List Cell) : List Int :=
  cells.filterMap (fun c =>
    match c with
    | .int n => some n
    | _ => none)

/-- Multiplicity of `v` in `l`. -/
def countInt (l : List Int) (v : Int) : Nat :=
  l.countP (fun x => x == v)

/-- `Series.mode()[0]`: the smallest among the most frequent values, or
`none` on an empty list (pandas `mode()` returns the tied most-frequent
values sorted ascending). -/
def mostFreqMin (l : List Int) : Option Int :=
  l.foldl
    (fun acc v =>
      match acc with
      | none => some v
      | some m =>
          if countInt l v > countInt l m ∨
              (countInt l v = countInt l m ∧ v < m) then some v
          else some m)
    none

/-- The label fill value: `mode()[0]` if the mode list is nonempty, else
`0`. -/
def modeValInt (cells : List Cell) : Int :=
  (mostFreqMin (nonNullInts cells)).getD 0

/-- Every row has exactly one cell per header column (rectangular table).
CSV-sourced frames always satisfy this. -/
def wfDF (df : DataFrame) : Bool :=
  df.rows.all (fun r => r.cells.length == df.header.length)

/-! ### The Transformer pipeline (`StockTransformer`) -/

/-- Step 1, `_normalize_column_names` on one name: strip, lower, replace
`' '` and `'-'` by `'_'`. -/
def normalizeName (s : String) : String :=
  String.mk (replChar '-' '_' (replChar ' ' '_'
    ((trimChars s.data).map lowerChar)))

/-- Step 1, `_normalize_column_names`. -/
def normalize_column_names (df : DataFrame) : DataFrame :=
  { df with header := df.header.map normalizeName }

/-- First block of `_convert_data_types`: try to parse the date column as
a whole with `pd.to_datetime`; the raised exception is caught and merely
logged, leaving the column unchanged. -/
def convertDateCol (df : DataFrame) : DataFrame :=
  if "date" ∈ df.header then
    match traverseCells toDatetimeCell (getColCells df "date") with
    | .ok cells => setColCells df "date" cells
    | .error _ => df
  else df

/-- Second block of `_convert_data_types`: try to coerce the label column
to int with `astype(int)`; the raised exception is caught and merely
logged, leaving the column unchanged. -/
def convertLabelCol (df : DataFrame) : DataFrame :=
  if "label" ∈ df.header then
    match traverseCells astypeIntCell (getColCells df "label") with
    | .ok cells => setColCells df "label" cells
    | .error _ => df
  else df

/-- Step 2, `_convert_data_types`: the date block, the label block, then
the coercion of every `top*` headline column to text with `fillna('')`,
`astype(str)` and `replace('nan','')`. -/
def convert_data_types (df : DataFrame) : DataFrame :=
  (topCols (convertLabelCol (convertDateCol df))).foldl
    (fun d c => mapCol d c topConvertCell)
    (convertLabelCol (convertDateCol df))

/-- The numeric-column loop of `_handle_missing_values`: of the numeric
columns, only `label` is acted on — when it has nulls they are filled
with `mode()[0]` (or `0` when the mode list is empty). -/
def fillLabelCol (df : DataFrame) : DataFrame :=
  if "label" ∈ df.header then
    if isNumericCells (getColCells df "label") &&
        (getColCells df "label").any isNullCell then
      mapCol df "label"
        (fillCell (Cell.int (modeValInt (getColCells df "label"))))
    else df
  else df

/-- Step 3, `_handle_missing_values`: if the table has no nulls, do
nothing.  Otherwise run the label fill, then fill nulls of every headline
column with the empty string. -/
def handle_missing_values (df : DataFrame) : DataFrame :=
  if nullCountDF df = 0 then df
  else
    (topCols (fillLabelCol df)).foldl
      (fun d c =>
        if (getColCells d c).any isNullCell then
          mapCol d c (fillCell (Cell.str ""))
        else d)
      (fillLabelCol df)

/-- `drop_duplicates()`: keep the first of every group of rows with fully
identical cells (index labels are not compared). -/
def dedupRowsAux : List (List Cell) → List Row → List Row
  | _, [] => []
  | seen, r :: rs =>
      if r.cells ∈ seen then dedupRowsAux seen rs
      else r :: dedupRowsAux (r.cells :: seen) rs

/-- Step 4, `_remove_duplicates`. -/
def remove_duplicates (df : DataFrame) : DataFrame :=
  { df with rows := dedupRowsAux [] df.rows }

/-- `reset_index(drop=True)`: relabel rows `k, k+1, …`. -/
def resetIndexAux (k : Nat) : List Row → List Row
  | [] => []
  | r :: rs => { r with idx := k } :: resetIndexAux (k + 1) rs

/-- Step 5, `_clean_dates`: if a date column exists, drop the rows whose
date cell is null (`dropna(subset=['date'])`), sort ascending by the date
cell (`sort_values('date')`), and reset the index to `0, 1, …`.
The source's sort is numpy's default quicksort, which is *unstable*: the
relative order of rows with equal dates is unspecified.  The model picks
one concrete refinement of that specification — a stable insertion sort —
so theorems about the result are stated so as not to depend on the order
chosen among tied dates: sortedness conclusions are non-strict
monotonicity only, and identity-of-resort conclusions require the date
keys to be pairwise distinct. -/
def clean_dates (df : DataFrame) : DataFrame :=
  match colIdx "date" df.header with
  | none => df
  | some i =>
      let kept := df.rows.filter (fun r => !isNullCell (cellAt r i))
      let sorted :=
        List.insertionSort (fun a b => cellLe (cellAt a i) (cellAt b i) = true)
          kept
      { df with rows := resetIndexAux 0 sorted }

/-- Step 6, `_normalize_values`: `str.strip()` every headline column. -/
def normalize_values (df : DataFrame) : DataFrame :=
  (topCols df).foldl (fun d c => mapCol d c stripCell) df

/-- The sentiment feature: `clean_data['sentiment'] =
clean_data['label'].map({0: 'Negativo', 1: 'Positivo'})`, run only when a
label column exists. -/
def addSentiment (df : DataFrame) : DataFrame :=
  if "label" ∈ df.header then
    setColCells df "sentiment" ((getColCells df "label").map sentimentCell)
  else df

/-- Step 7, `_create_features`: when a date column exists, derive
year/month/day/day_of_week/quarter through the `.dt` accessor — which
raises (uncaught in the source) when the date column is not
datetime-like — then derive the sentiment column from the label. -/
def create_features (df : DataFrame) : Except String DataFrame :=
  if "date" ∈ df.header then
    if isDatetimeLike (getColCells df "date") then
      let df1 := setColCells df "year" ((getColCells df "date").map yearCell)
      let df2 :=
        setColCells df1 "month" ((getColCells df1 "date").map monthCell)
      let df3 := setColCells df2 "day" ((getColCells df2 "date").map dayCell)
      let df4 :=
        setColCells df3 "day_of_week" ((getColCells df3 "date").map dowCell)
      let df5 :=
        setColCells df4 "quarter" ((getColCells df4 "date").map quarterCell)
      .ok (addSentiment df5)
    else .error "Can only use .dt accessor with datetimelike values"
  else .ok (addSentiment df)

/-- `transform_all`: the seven steps in the source's fixed order.  The
result is `Except`-valued because `_create_features` can raise out of the
method. -/
def transform_all (df : DataFrame) : Except String DataFrame :=
  create_features (normalize_values (clean_dates (remove_duplicates
    (handle_missing_values (convert_data_types
      (normalize_column_names df))))))

/-- The pipeline state right after step 5 (`_clean_dates`), used to state
properties of the date-validation step in pipeline context. -/
def transformThroughCleanDates (df : DataFrame) : DataFrame :=
  clean_dates (remove_duplicates (handle_missing_values
    (convert_data_types (normalize_column_names df))))

/-! ### The Transformer object state -/

/-- The `StockTransformer` instance state: the stored raw copy and the
clean table (absent until `transform_all` has completed). -/
structure StockTransformer where
  raw_data : DataFrame
  clean_data : Option DataFrame
deriving DecidableEq, Repr

/-- `StockTransformer.__init__`: store a private copy of the caller's
table; no clean table exists yet. -/
def StockTransformer.init (data : DataFrame) : StockTransformer :=
  { raw_data := data.copy, clean_data := none }

/-- The `transform_all` method: work on a fresh copy of the stored raw
table, run the pipeline, record the clean table and return it. -/
def StockTransformer.transformAll (t : StockTransformer) :
    Except String (StockTransformer × DataFrame) :=
  match transform_all t.raw_data.copy with
  | .ok clean => .ok ({ t with clean_data := some clean }, clean)
  | .error e => .error e

/-- `get_clean_data`: the clean table if one exists, else the stored raw
table. -/
def StockTransformer.get_clean_data (t : StockTransformer) : DataFrame :=
  t.clean_data.getD t.raw_data

/-! ### The Loader (`StockLoader`) -/

/-- One entry of the Loader's `load_log` (format name and success flag;
path/size/row-count metadata is bookkeeping the claims do not touch). -/
structure LoadEntry where
  formato : String
  exitoso : Bool
deriving DecidableEq, Repr

/-- The `StockLoader` instance state. -/
structure StockLoader where
  output_dir : String
  load_log : List LoadEntry
deriving DecidableEq, Repr

/-- The outcomes of the three external write effects
(`to_csv`, `to_parquet`, `to_sql`+indexing) for one run; the Loader's
control flow is modelled over them. -/
structure SinkEnv where
  csvWrite : Except String Unit
  parquetWrite : Except String Unit
  sqliteWrite : Except String Unit

/-- `load_to_csv`: on success log a successful CSV entry and return the
path; on failure log an unsuccessful entry and re-raise. -/
def load_to_csv (env : SinkEnv) (st : StockLoader) (file_name : String) :
    StockLoader × Except String String :=
  let path := st.output_dir ++ "/" ++ file_name ++ ".csv"
  match env.csvWrite with
  | .ok _ => ({ st with load_log := st.load_log ++ [⟨"CSV", true⟩] }, .ok path)
  | .error e =>
      ({ st with load_log := st.load_log ++ [⟨"CSV", false⟩] }, .error e)

/-- `load_to_parquet`: on success log and return the path; on failure log
and return `None` — the exception is swallowed
("No lanzar excepción si solo falla Parquet"). -/
def load_to_parquet (env : SinkEnv) (st : StockLoader) (file_name : String) :
    StockLoader × Option String :=
  let path := st.output_dir ++ "/" ++ file_name ++ ".parquet"
  match env.parquetWrite with
  | .ok _ =>
      ({ st with load_log := st.load_log ++ [⟨"Parquet", true⟩] }, some path)
  | .error _ =>
      ({ st with load_log := st.load_log ++ [⟨"Parquet", false⟩] }, none)

/-- `load_to_sqlite`: on success log and return the database path; on
failure log an unsuccessful entry and re-raise. -/
def load_to_sqlite (env : SinkEnv) (st : StockLoader) (db_name : String) :
    StockLoader × Except String String :=
  let path := st.output_dir ++ "/" ++ db_name ++ ".db"
  match env.sqliteWrite with
  | .ok _ =>
      ({ st with load_log := st.load_log ++ [⟨"SQLite", true⟩] }, .ok path)
  | .error e =>
      ({ st with load_log := st.load_log ++ [⟨"SQLite", false⟩] }, .error e)

/-- `load_all`: CSV, then Parquet, then SQLite, in order.  A CSV or SQLite
exception propagates out of `load_all`; a Parquet failure does not. -/
def load_all (env : SinkEnv) (st : StockLoader) (base_name : String) :
    StockLoader × Except String Unit :=
  let r1 := load_to_csv env st base_name
  match r1.2 with
  | .error e => (r1.1, .error e)
  | .ok _ =>
      let r2 := load_to_parquet env r1.1 base_name
      let r3 := load_to_sqlite env r2.1 base_name
      match r3.2 with
      | .error e => (r3.1, .error e)
      | .ok _ => (r3.1, .ok ())

/-- `get_load_report`, reduced to the pair the claims talk about:
successful loads and total attempts. -/
def get_load_report (st : StockLoader) : Nat × Nat :=
  ((st.load_log.filter (·.exitoso)).length, st.load_log.length)

/-! ### The Extractor (`StockExtractor.extract_data`) -/

/-- The ways `pd.read_csv` fails: a decode error (caught per encoding), a
missing file, or any other parse failure. -/
inductive ReadError
  | unicodeDecode (msg : String)
  | fileNotFound (path : String)
  | otherError (msg : String)
deriving DecidableEq, Repr

/-- The fixed encoding list of `extract_data`. -/
def encodingsList : List String := ["utf-8", "latin-1", "iso-8859-1", "cp1252"]

/-- The encoding loop: a decode error on a non-final encoding moves on to
the next (`continue`); a decode error on the final encoding is re-raised;
any other error propagates immediately (the inner `except` only catches
`UnicodeDecodeError`).  `read` is the outcome of `pd.read_csv` at each
attempted encoding. -/
def tryEncodings (read : String → Except ReadError DataFrame) :
    List String → Except ReadError DataFrame
  | [] => .error (.otherError "no encodings to try")
  | [e] => read e
  | e :: e2 :: rest =>
      match read e with
      | .ok df => .ok df
      | .error (.unicodeDecode _) => tryEncodings read (e2 :: rest)
      | .error err => .error err

/-- `extract_data`: try the fixed encoding list in order. -/
def extract_data (read : String → Except ReadError DataFrame) :
    Except ReadError DataFrame :=
  tryEncodings read encodingsList

/-! ### Concrete tables used by witnesses and counterexamples -/

/-- A one-row table with a single label column. -/
def dfLabelOnly : DataFrame :=
  { header := ["label"], rows := [⟨0, [.int 1]⟩] }

/-- The clean table `transform_all` produces from `dfLabelOnly`. -/
def dfLabelOnlyOut : DataFrame :=
  { header := ["label", "sentiment"],
    rows := [⟨0, [.int 1, .str "Positivo"]⟩] }

/-- A one-row table whose label is 2: the pipeline completes but the
sentiment mapping yields a null, leaving one null in the output. -/
def df3ce : DataFrame :=
  { header := ["date", "label"],
    rows := [⟨0, [Cell.str "2020-01-01", Cell.int 2]⟩] }

/-- A three-row table with a null label, a null headline and a literal
"nan" headline, used as the concrete witness input for the no-null
property. -/
def df3w : DataFrame :=
  { header := ["Date", "label", "top1"],
    rows := [⟨0, [Cell.str "2020-01-02", Cell.int 1, Cell.str " hello "]⟩,
             ⟨1, [Cell.str "2020-01-01", Cell.int 0, Cell.null]⟩,
             ⟨2, [Cell.str "2020-01-03", Cell.null, Cell.str "nan"]⟩] }

/-- The output of `transform_all df3w`. -/
def df3wOut : DataFrame :=
  { header := ["date", "label", "top1", "year", "month", "day",
               "day_of_week", "quarter", "sentiment"],
    rows := [⟨0, [Cell.date 2020 1 1, Cell.int 0, Cell.str "",
                  Cell.int 2020, Cell.int 1, Cell.int 1, Cell.int 2,
                  Cell.int 1, Cell.str "Negativo"]⟩,
             ⟨1, [Cell.date 2020 1 2, Cell.int 1, Cell.str "hello",
                  Cell.int 2020, Cell.int 1, Cell.int 2, Cell.int 3,
                  Cell.int 1, Cell.str "Positivo"]⟩,
             ⟨2, [Cell.date 2020 1 3, Cell.int 0, Cell.str "",
                  Cell.int 2020, Cell.int 1, Cell.int 3, Cell.int 4,
                  Cell.int 1, Cell.str "Negativo"]⟩] }

/-- Two rows identical except for a trailing space in the `top1` headline:
the first run deduplicates before trimming, so its output still holds two
fully identical rows and a second run removes one of them. -/
def df8ce : DataFrame :=
  { header := ["date", "label", "top1"],
    rows := [⟨0, [Cell.str "2020-01-01", Cell.int 1, Cell.str "a"]⟩,
             ⟨1, [Cell.str "2020-01-01", Cell.int 1, Cell.str "a "]⟩] }

/-- A two-row table whose completed output satisfies every clean-table
invariant, used as the concrete witness input for the amended
idempotence property. -/
def df8w : DataFrame :=
  { header := ["date", "label", "top1"],
    rows := [⟨0, [Cell.str "2021-05-04", Cell.int 0, Cell.str "b"]⟩,
             ⟨1, [Cell.str "2021-05-03", Cell.int 1, Cell.str " a "]⟩] }

/-- The output of `transform_all df8w`. -/
def df8wOut : DataFrame :=
  { header := ["date", "label", "top1", "year", "month", "day",
               "day_of_week", "quarter", "sentiment"],
    rows := [⟨0, [Cell.date 2021 5 3, Cell.int 1, Cell.str "a",
                  Cell.int 2021, Cell.int 5, Cell.int 3, Cell.int 0,
                  Cell.int 2, Cell.str "Positivo"]⟩,
             ⟨1, [Cell.date 2021 5 4, Cell.int 0, Cell.str "b",
                  Cell.int 2021, Cell.int 5, Cell.int 4, Cell.int 1,
                  Cell.int 2, Cell.str "Negativo"]⟩] }

/-! ### Claim C4: Loader error routing -/

/-- **C4** — In `load_all`, a Parquet sink failure is non-fatal: it is
caught and reported as a null result (`load_to_parquet` returns `none`),
the text and relational sinks are still attempted, and when they succeed
the load report shows 2 successful loads out of 3 attempts.  A CSV (text)
or SQLite (relational) sink failure, by contrast, propagates out of
`load_all`. -/
theorem C4_loader_parquet_nonfatal (envP envC envS : SinkEnv)
    (st : StockLoader) (base : String) (hlog : st.load_log = []) :
    ((∃ e, envP.parquetWrite = .error e) → envP.csvWrite = .ok () →
      envP.sqliteWrite = .ok () →
      (load_all envP st base).2 = .ok () ∧
      get_load_report (load_all envP st base).1 = (2, 3) ∧
      (load_to_parquet envP (load_to_csv envP st base).1 base).2 = none) ∧
    (∀ e, envC.csvWrite = .error e → (load_all envC st base).2 = .error e) ∧
    (∀ e, envS.csvWrite = .ok () → envS.sqliteWrite = .error e →
      (load_all envS st base).2 = .error e) := by
  refine ⟨?_, ?_, ?_⟩
  · rintro ⟨e, hp⟩ hc hs
    simp [load_all, load_to_csv, load_to_parquet, load_to_sqlite,
      get_load_report, hp, hc, hs, hlog]
  · intro e hc
    simp [load_all, load_to_csv, hc]
  · intro e hc hs
    simp [load_all, load_to_csv, load_to_parquet, load_to_sqlite, hc, hs]

/-- Witness for C4 at a concrete environment: Parquet raises, CSV and
SQLite succeed; plus concrete propagation cases. -/
theorem C4_loader_parquet_nonfatal_witness :
    (load_all ⟨.ok (), .error "disk full", .ok ()⟩ ⟨"data", []⟩ "s").2 =
        .ok () ∧
      get_load_report
        (load_all ⟨.ok (), .error "disk full", .ok ()⟩ ⟨"data", []⟩ "s").1 =
        (2, 3) ∧
      (load_to_parquet ⟨.ok (), .error "disk full", .ok ()⟩
        (load_to_csv ⟨.ok (), .error "disk full", .ok ()⟩ ⟨"data", []⟩ "s").1
        "s").2 = none := by
  exact (C4_loader_parquet_nonfatal ⟨.ok (), .error "disk full", .ok ()⟩
    ⟨.ok (), .ok (), .ok ()⟩ ⟨.ok (), .ok (), .ok ()⟩ ⟨"data", []⟩ "s"
    rfl).1 ⟨"disk full", rfl⟩ rfl rfl

/-! ### Claim C7: Extractor encoding fallback -/

/-- **C7** — `extract_data` tries UTF-8, Latin-1, ISO-8859-1, Windows-1252
in that order and returns the table read by the first encoding that does
not hit a decode error; if all four attempts fail with decode errors, the
last attempt's decode error is raised; a file-not-found error surfaces
as-is. -/
theorem C7_extract_encoding_order
    (read : String → Except ReadError DataFrame) (df : DataFrame)
    (m1 m2 m3 m4 p : String) :
    (read "utf-8" = .ok df → extract_data read = .ok df) ∧
    (read "utf-8" = .error (.unicodeDecode m1) → read "latin-1" = .ok df →
      extract_data read = .ok df) ∧
    (read "utf-8" = .error (.unicodeDecode m1) →
      read "latin-1" = .error (.unicodeDecode m2) →
      read "iso-8859-1" = .ok df → extract_data read = .ok df) ∧
    (read "utf-8" = .error (.unicodeDecode m1) →
      read "latin-1" = .error (.unicodeDecode m2) →
      read "iso-8859-1" = .error (.unicodeDecode m3) →
      read "cp1252" = .ok df → extract_data read = .ok df) ∧
    (read "utf-8" = .error (.unicodeDecode m1) →
      read "latin-1" = .error (.unicodeDecode m2) →
      read "iso-8859-1" = .error (.unicodeDecode m3) →
      read "cp1252" = .error (.unicodeDecode m4) →
      extract_data read = .error (.unicodeDecode m4)) ∧
    (read "utf-8" = .error (.fileNotFound p) →
      extract_data read = .error (.fileNotFound p)) := by
  refine ⟨?_, ?_, ?_, ?_, ?_, ?_⟩
  · intro h1
    simp [extract_data, encodingsList, tryEncodings, h1]
  · intro h1 h2
    simp [extract_data, encodingsList, tryEncodings, h1, h2]
  · intro h1 h2 h3
    simp [extract_data, encodingsList, tryEncodings, h1, h2, h3]
  · intro h1 h2 h3 h4
    simp [extract_data, encodingsList, tryEncodings, h1, h2, h3, h4]
  · intro h1 h2 h3 h4
    simp [extract_data, encodingsList, tryEncodings, h1, h2, h3, h4]
  · intro h1
    simp [extract_data, encodingsList, tryEncodings, h1]

/-- Witness for C7 at a concrete read environment: UTF-8 and Latin-1 fail
to decode, ISO-8859-1 succeeds. -/
theorem C7_extract_encoding_order_witness :
    extract_data
      (fun enc =>
        if enc = "utf-8" then .error (.unicodeDecode "bad utf8")
        else if enc = "latin-1" then .error (.unicodeDecode "bad latin1")
        else .ok { header := ["date"], rows := [] }) =
      .ok { header := ["date"], rows := [] } := by
  exact (C7_extract_encoding_order
    (fun enc =>
      if enc = "utf-8" then .error (.unicodeDecode "bad utf8")
      else if enc = "latin-1" then .error (.unicodeDecode "bad latin1")
      else .ok { header := ["date"], rows := [] })
    { header := ["date"], rows := [] } "bad utf8" "bad latin1" "" "" "").2.2.1
    rfl rfl rfl

/-! ### Claim C9: the Transformer does not mutate its input -/

/-- **C9** — The Transformer never mutates the table it was constructed
with: construction stores a copy equal to the caller's table, and a
completed `transform_all` leaves the stored raw table unchanged — the
pipeline works on a private copy and yields the clean table as a separate
new artifact. -/
theorem C9_transformer_preserves_raw (d : DataFrame) :
    (StockTransformer.init d).raw_data = d ∧
    ∀ t t' out, StockTransformer.transformAll t = .ok (t', out) →
      t'.raw_data = t.raw_data ∧ t'.clean_data = some out := by
  refine ⟨rfl, ?_⟩
  intro t t' out h
  unfold StockTransformer.transformAll at h
  cases hres : transform_all t.raw_data.copy with
  | ok clean => rw [hres] at h; cases h; exact ⟨rfl, rfl⟩
  | error e => rw [hres] at h; cases h

/-- Witness for C9 at a concrete table. -/
theorem C9_transformer_preserves_raw_witness :
    StockTransformer.transformAll (StockTransformer.init dfLabelOnly) =
      .ok (⟨dfLabelOnly, some dfLabelOnlyOut⟩, dfLabelOnlyOut) ∧
    (⟨dfLabelOnly, some dfLabelOnlyOut⟩ : StockTransformer).raw_data =
      (StockTransformer.init dfLabelOnly).raw_data := by
  have h : StockTransformer.transformAll (StockTransformer.init dfLabelOnly) =
      .ok (⟨dfLabelOnly, some dfLabelOnlyOut⟩, dfLabelOnlyOut) := by decide
  exact ⟨h, ((C9_transformer_preserves_raw dfLabelOnly).2 _ _ _ h).1⟩

/-! ### Claim C10: get_clean_data before and after transform_all -/

/-- **C10** — `get_clean_data` called before `transform_all` has ever run
does not fail and does not return an empty result: it returns the stored
copy of the raw input table; after a completed `transform_all` it returns
the clean table. -/
theorem C10_get_clean_data_fallback (d : DataFrame) :
    (StockTransformer.init d).get_clean_data = d ∧
    ∀ t t' out, StockTransformer.transformAll t = .ok (t', out) →
      t'.get_clean_data = out := by
  refine ⟨rfl, ?_⟩
  intro t t' out h
  unfold StockTransformer.transformAll at h
  cases hres : transform_all t.raw_data.copy with
  | ok clean =>
      rw [hres] at h; cases h
      simp [StockTransformer.get_clean_data]
  | error e => rw [hres] at h; cases h

/-- Witness for C10 at a concrete table: before the run the raw table
comes back, after the run the clean table does. -/
theorem C10_get_clean_data_fallback_witness :
    (StockTransformer.init dfLabelOnly).get_clean_data = dfLabelOnly ∧
    StockTransformer.transformAll (StockTransformer.init dfLabelOnly) =
      .ok (⟨dfLabelOnly, some dfLabelOnlyOut⟩, dfLabelOnlyOut) ∧
    (⟨dfLabelOnly, some dfLabelOnlyOut⟩ : StockTransformer).get_clean_data =
      dfLabelOnlyOut := by
  have h : StockTransformer.transformAll (StockTransformer.init dfLabelOnly) =
      .ok (⟨dfLabelOnly, some dfLabelOnlyOut⟩, dfLabelOnlyOut) := by decide
  exact ⟨(C10_get_clean_data_fallback dfLabelOnly).1, h,
    (C10_get_clean_data_fallback dfLabelOnly).2 _ _ _ h⟩

/-! ### Supporting lemmas -/

/-! ### Basic list lemmas -/

theorem set_getD_eq {α : Type} (l : List α) (i : Nat) (d : α) :
    l.set i (l.getD i d) = l := by
  induction l generalizing i with
  | nil => rfl
  | cons a t ih =>
      cases i with
      | zero => simp [List.getD]
      | succ j => simp [List.getD] at ih ⊢; exact ih j

theorem getD_set_ne {α : Type} (l : List α) (i j : Nat) (v d : α)
    (h : i ≠ j) : (l.set j v).getD i d = l.getD i d := by
  induction l generalizing i j with
  | nil => rfl
  | cons a t ih =>
      cases j with
      | zero =>
          cases i with
          | zero => exact absurd rfl h
          | succ i' => simp [List.getD]
      | succ j' =>
          cases i with
          | zero => simp [List.getD]
          | succ i' =>
              simp only [List.set, List.getD, List.getElem?_cons_succ]
              exact ih i' j' (fun hc => h (by rw [hc]))

theorem getD_append_lt {α : Type} (l t : List α) (i : Nat) (d : α)
    (h : i < l.length) : (l ++ t).getD i d = l.getD i d := by
  simp [List.getD, List.getElem?_append_left h]

theorem getD_append_len {α : Type} (l : List α) (v d : α) :
    (l ++ [v]).getD l.length d = v := by
  simp [List.getD, List.getElem?_append_right (Nat.le_refl _)]

/-! ### colIdx lemmas -/

theorem colIdx_lt_length (n : String) (h : List String) (i : Nat)
    (hi : colIdx n h = some i) : i < h.length := by
  induction h generalizing i with
  | nil => simp [colIdx] at hi
  | cons a t ih =>
      by_cases ha : a = n
      · simp [colIdx, ha] at hi ⊢
        omega
      · simp [colIdx, ha] at hi ⊢
        obtain ⟨j, hj, rfl⟩ := hi
        have := ih j hj
        omega

theorem colIdx_getD (n : String) (h : List String) (i : Nat)
    (hi : colIdx n h = some i) : h.getD i "" = n := by
  induction h generalizing i with
  | nil => simp [colIdx] at hi
  | cons a t ih =>
      by_cases ha : a = n
      · simp [colIdx, ha] at hi
        subst hi
        simpa [List.getD] using ha
      · simp [colIdx, ha] at hi
        obtain ⟨j, hj, rfl⟩ := hi
        simpa [List.getD] using ih j hj

theorem colIdx_eq_none_iff (n : String) (h : List String) :
    colIdx n h = none ↔ n ∉ h := by
  induction h with
  | nil => simp [colIdx]
  | cons a t ih =>
      by_cases ha : a = n
      · subst ha
        simp [colIdx]
      · simp only [colIdx, if_neg ha, List.mem_cons, Option.map_eq_none', ih]
        constructor
        · intro hc hmem
          rcases hmem with h1 | h2
          · exact ha h1.symm
          · exact hc h2
        · intro hmem h2
          exact hmem (Or.inr h2)

theorem colIdx_isSome_of_mem (n : String) (h : List String) (hn : n ∈ h) :
    ∃ i, colIdx n h = some i := by
  cases hc : colIdx n h with
  | none => exact absurd hn ((colIdx_eq_none_iff n h).mp hc)
  | some i => exact ⟨i, rfl⟩

theorem colIdx_append_left (n : String) (h t : List String) (i : Nat)
    (hi : colIdx n h = some i) : colIdx n (h ++ t) = some i := by
  induction h generalizing i with
  | nil => simp [colIdx] at hi
  | cons a h' ih =>
      by_cases ha : a = n
      · simp [colIdx, ha] at hi ⊢
        exact hi
      · simp [colIdx, ha] at hi ⊢
        obtain ⟨j, hj, rfl⟩ := hi
        exact ⟨j, ih j hj, rfl⟩

theorem colIdx_append_fresh (n : String) (h : List String) (hn : n ∉ h) :
    colIdx n (h ++ [n]) = some h.length := by
  induction h with
  | nil => simp [colIdx]
  | cons a t ih =>
      have ha : a ≠ n := fun hc => hn (by simp [hc])
      have ht : n ∉ t := fun hc => hn (by simp [hc])
      simp [colIdx, ha, ih ht]

theorem colIdx_append_not_mem (n m : String) (h : List String)
    (hn : n ∉ h) (hnm : n ≠ m) : colIdx n (h ++ [m]) = none := by
  rw [colIdx_eq_none_iff]
  simp [hn, hnm]

/-- Different names sitting in the same header have different positions. -/
theorem colIdx_ne (n m : String) (h : List String) (i j : Nat)
    (hnm : n ≠ m) (hi : colIdx n h = some i) (hj : colIdx m h = some j) :
    i ≠ j := by
  intro hc
  subst hc
  exact hnm ((colIdx_getD n h i hi).symm.trans (colIdx_getD m h i hj))
/-! ### setColCells / mapCol / getColCells lemmas -/

theorem getColCells_length (df : DataFrame) (n : String) (i : Nat)
    (hi : colIdx n df.header = some i) :
    (getColCells df n).length = df.rows.length := by
  simp [getColCells, hi]

theorem setColCells_header_overwrite (df : DataFrame) (n : String)
    (vs : List Cell) (i : Nat) (hi : colIdx n df.header = some i) :
    (setColCells df n vs).header = df.header := by
  simp [setColCells, hi]

theorem setColCells_header_fresh (df : DataFrame) (n : String)
    (vs : List Cell) (hi : colIdx n df.header = none) :
    (setColCells df n vs).header = df.header ++ [n] := by
  simp [setColCells, hi]

theorem setColCells_header_cases (df : DataFrame) (n : String)
    (vs : List Cell) :
    (setColCells df n vs).header = df.header ∨
      (setColCells df n vs).header = df.header ++ [n] := by
  cases hi : colIdx n df.header with
  | none => exact Or.inr (setColCells_header_fresh df n vs hi)
  | some i => exact Or.inl (setColCells_header_overwrite df n vs i hi)

theorem mem_setColCells_header_iff (df : DataFrame) (n m : String)
    (vs : List Cell) (hnm : m ≠ n) :
    m ∈ (setColCells df n vs).header ↔ m ∈ df.header := by
  rcases setColCells_header_cases df n vs with h | h <;>
    simp [h, List.mem_append, hnm]

theorem setColCells_rows_length (df : DataFrame) (n : String)
    (vs : List Cell) (hv : vs.length = df.rows.length) :
    (setColCells df n vs).rows.length = df.rows.length := by
  cases hi : colIdx n df.header <;> simp [setColCells, hi, hv]

theorem mapCol_header (df : DataFrame) (n : String) (f : Cell → Cell) :
    (mapCol df n f).header = df.header := by
  cases hi : colIdx n df.header <;> simp [mapCol, hi]

theorem mapCol_rows_length (df : DataFrame) (n : String) (f : Cell → Cell) :
    (mapCol df n f).rows.length = df.rows.length := by
  cases hi : colIdx n df.header <;> simp [mapCol, hi]

theorem wfDF_iff (df : DataFrame) :
    wfDF df = true ↔ ∀ r ∈ df.rows, r.cells.length = df.header.length := by
  simp [wfDF]

theorem wfDF_setColCells (df : DataFrame) (n : String) (vs : List Cell)
    (hwf : wfDF df = true) (hv : vs.length = df.rows.length) :
    wfDF (setColCells df n vs) = true := by
  rw [wfDF_iff] at hwf ⊢
  cases hi : colIdx n df.header with
  | some i =>
      simp only [setColCells, hi]
      intro r hr
      rw [List.mem_iff_get] at hr
      obtain ⟨k, hk⟩ := hr
      rw [List.get_zipWith] at hk
      rw [← hk]
      simp
      exact hwf _ (List.get_mem _ _ _)
  | none =>
      simp only [setColCells, hi]
      intro r hr
      rw [List.mem_iff_get] at hr
      obtain ⟨k, hk⟩ := hr
      rw [List.get_zipWith] at hk
      rw [← hk]
      simp
      exact hwf _ (List.get_mem _ _ _)

theorem wfDF_mapCol (df : DataFrame) (n : String) (f : Cell → Cell)
    (hwf : wfDF df = true) : wfDF (mapCol df n f) = true := by
  rw [wfDF_iff] at hwf ⊢
  cases hi : colIdx n df.header with
  | some i =>
      simp only [mapCol, hi]
      intro r hr
      rw [List.mem_map] at hr
      obtain ⟨r0, hr0, rfl⟩ := hr
      simp
      exact hwf _ hr0
  | none => simpa [mapCol, hi] using hwf

/-- Reading back the column just written (rectangular table). -/
theorem getColCells_setColCells_same (df : DataFrame) (n : String)
    (vs : List Cell) (hwf : wfDF df = true)
    (hv : vs.length = df.rows.length) :
    getColCells (setColCells df n vs) n = vs := by
  rw [wfDF_iff] at hwf
  cases hi : colIdx n df.header with
  | some i =>
      have hlt := colIdx_lt_length n df.header i hi
      have hh := setColCells_header_overwrite df n vs i hi
      simp only [getColCells, hh, hi, setColCells]
      apply List.ext_get
      · simp [hv]
      · intro k h1 h2
        simp only [List.get_map, List.get_zipWith, cellAt]
        have hr : (df.rows.get ⟨k, by simp at h1; omega⟩).cells.length =
            df.header.length := hwf _ (List.get_mem _ _ _)
        rw [List.getD_eq_getElem?_getD]
        rw [List.getElem?_set_self]
        · simp
        · rw [hr]; exact hlt
  | none =>
      have hh := setColCells_header_fresh df n vs hi
      have hfresh : colIdx n (df.header ++ [n]) = some df.header.length :=
        colIdx_append_fresh n df.header ((colIdx_eq_none_iff n df.header).mp hi)
      simp only [getColCells, hh, hfresh, setColCells, hi]
      apply List.ext_get
      · simp [hv]
      · intro k h1 h2
        simp only [List.get_map, List.get_zipWith, cellAt]
        have hr : (df.rows.get ⟨k, by simp at h1; omega⟩).cells.length =
            df.header.length := hwf _ (List.get_mem _ _ _)
        have hg := getD_append_len (df.rows.get ⟨k, by simp at h1; omega⟩).cells
          (vs.get ⟨k, h2⟩) Cell.null
        rw [hr] at hg
        exact hg
/-- Mapping a function that fixes every element is the identity. -/
theorem list_map_eq_self {α : Type} (l : List α) (f : α → α)
    (h : ∀ x ∈ l, f x = x) : l.map f = l := by
  induction l with
  | nil => rfl
  | cons a t ih =>
      simp only [List.map_cons, h a (by simp)]
      rw [ih (fun x hx => h x (by simp [hx]))]

/-- Writing one column leaves every other column's cells unchanged. -/
theorem getColCells_setColCells_other (df : DataFrame) (n m : String)
    (vs : List Cell) (hnm : m ≠ n) (hwf : wfDF df = true)
    (hv : vs.length = df.rows.length) :
    getColCells (setColCells df n vs) m = getColCells df m := by
  rw [wfDF_iff] at hwf
  cases hi : colIdx n df.header with
  | some i =>
      have hh := setColCells_header_overwrite df n vs i hi
      simp only [getColCells, hh]
      cases hj : colIdx m df.header with
      | none => rfl
      | some j =>
          have hij : j ≠ i := colIdx_ne m n df.header j i hnm hj hi
          simp only [setColCells, hi]
          apply List.ext_get
          · simp [hv]
          · intro k h1 h2
            simp only [List.get_eq_getElem, List.getElem_map, List.getElem_zipWith, cellAt]
            exact getD_set_ne _ j i _ _ hij
  | none =>
      have hh := setColCells_header_fresh df n vs hi
      simp only [getColCells, hh]
      cases hj : colIdx m df.header with
      | none =>
          have : colIdx m (df.header ++ [n]) = none :=
            colIdx_append_not_mem m n df.header
              ((colIdx_eq_none_iff m df.header).mp hj) hnm
          simp [this]
      | some j =>
          have hj2 : colIdx m (df.header ++ [n]) = some j :=
            colIdx_append_left m df.header [n] j hj
          have hjlt := colIdx_lt_length m df.header j hj
          simp only [hj2, setColCells, hi]
          apply List.ext_get
          · simp [hv]
          · intro k h1 h2
            simp only [List.get_eq_getElem, List.getElem_map, List.getElem_zipWith, cellAt]
            have hk : k < df.rows.length := by simp at h2; omega
            have hr : df.rows[k].cells.length =
                df.header.length := hwf _ (List.getElem_mem _)
            exact getD_append_lt _ _ j _ (by rw [hr]; exact hjlt)

/-- Reading back a mapped column (rectangular table). -/
theorem getColCells_mapCol_same (df : DataFrame) (n : String)
    (f : Cell → Cell) (i : Nat) (hi : colIdx n df.header = some i)
    (hwf : wfDF df = true) :
    getColCells (mapCol df n f) n = (getColCells df n).map f := by
  rw [wfDF_iff] at hwf
  have hlt := colIdx_lt_length n df.header i hi
  simp only [getColCells, mapCol_header, mapCol, hi, List.map_map]
  apply List.ext_get
  · simp
  · intro k h1 h2
    simp only [List.get_eq_getElem, List.getElem_map, Function.comp, cellAt]
    have hk : k < df.rows.length := by simp at h2; omega
    have hr : df.rows[k].cells.length =
        df.header.length := hwf _ (List.getElem_mem _)
    rw [List.getD_eq_getElem?_getD, List.getElem?_set_self (by rw [hr]; exact hlt)]
    simp

/-- Mapping one column leaves every other column's cells unchanged. -/
theorem getColCells_mapCol_other (df : DataFrame) (n m : String)
    (f : Cell → Cell) (hnm : m ≠ n) :
    getColCells (mapCol df n f) m = getColCells df m := by
  cases hi : colIdx n df.header with
  | none => simp [mapCol, hi]
  | some i =>
      simp only [getColCells, mapCol_header]
      cases hj : colIdx m df.header with
      | none => rfl
      | some j =>
          have hij : j ≠ i := colIdx_ne m n df.header j i hnm hj hi
          simp only [mapCol, hi, List.map_map]
          apply List.ext_get
          · simp
          · intro k h1 h2
            simp only [List.get_eq_getElem, List.getElem_map, Function.comp, cellAt]
            exact getD_set_ne _ j i _ _ hij

/-- A per-cell map that fixes every cell of the column fixes the table. -/
theorem mapCol_eq_self (df : DataFrame) (n : String) (f : Cell → Cell)
    (h : ∀ c ∈ getColCells df n, f c = c) : mapCol df n f = df := by
  cases hi : colIdx n df.header with
  | none => simp [mapCol, hi]
  | some i =>
      simp only [mapCol, hi]
      have : df.rows.map
          (fun r => { r with cells := r.cells.set i (f (cellAt r i)) }) =
          df.rows := by
        apply list_map_eq_self
        intro r hr
        have hc : cellAt r i ∈ getColCells df n := by
          simp only [getColCells, hi]
          exact List.mem_map_of_mem _ hr
        rw [h _ hc, cellAt, set_getD_eq]
      simp [this]

/-- Writing a column's own cells back is a no-op. -/
theorem setColCells_self (df : DataFrame) (n : String) (i : Nat)
    (hi : colIdx n df.header = some i) :
    setColCells df n (getColCells df n) = df := by
  simp only [setColCells, hi, getColCells]
  have : List.zipWith (fun r v => { r with cells := r.cells.set i v })
      df.rows (df.rows.map (fun r => cellAt r i)) = df.rows := by
    rw [List.zipWith_map_right]
    have h2 : ∀ l : List Row, List.zipWith
        (fun r v => { r with cells := r.cells.set i (cellAt v i) }) l l =
        l.map (fun r => { r with cells := r.cells.set i (cellAt r i) }) := by
      intro l
      induction l with
      | nil => rfl
      | cons a t ih => simp [ih]
    rw [h2]
    apply list_map_eq_self
    intro r _
    rw [cellAt, set_getD_eq]
  simp [this]
/-! ### Lemmas about folds of `mapCol` over a list of column names -/

theorem fold_mapCol_header (ns : List String) (f : Cell → Cell)
    (df : DataFrame) :
    (ns.foldl (fun d c => mapCol d c f) df).header = df.header := by
  induction ns generalizing df with
  | nil => rfl
  | cons a t ih => simp [ih, mapCol_header]

theorem fold_mapCol_rows_length (ns : List String) (f : Cell → Cell)
    (df : DataFrame) :
    (ns.foldl (fun d c => mapCol d c f) df).rows.length =
      df.rows.length := by
  induction ns generalizing df with
  | nil => rfl
  | cons a t ih => simp [ih, mapCol_rows_length]

theorem fold_mapCol_wf (ns : List String) (f : Cell → Cell)
    (df : DataFrame) (hwf : wfDF df = true) :
    wfDF (ns.foldl (fun d c => mapCol d c f) df) = true := by
  induction ns generalizing df with
  | nil => exact hwf
  | cons a t ih => exact ih _ (wfDF_mapCol df a f hwf)

theorem fold_mapCol_other (ns : List String) (f : Cell → Cell)
    (df : DataFrame) (m : String) (hm : ∀ n ∈ ns, n ≠ m) :
    getColCells (ns.foldl (fun d c => mapCol d c f) df) m =
      getColCells df m := by
  induction ns generalizing df with
  | nil => rfl
  | cons a t ih =>
      simp only [List.foldl_cons]
      rw [ih _ (fun n hn => hm n (by simp [hn]))]
      exact getColCells_mapCol_other df a m f
        (fun hc => hm a (by simp) hc.symm)

theorem fold_mapCol_id (ns : List String) (f : Cell → Cell)
    (df : DataFrame) (h : ∀ n ∈ ns, mapCol df n f = df) :
    ns.foldl (fun d c => mapCol d c f) df = df := by
  induction ns with
  | nil => rfl
  | cons a t ih =>
      simp only [List.foldl_cons, h a (by simp)]
      exact ih (fun n hn => h n (by simp [hn]))

/-- After folding `mapCol f` over `ns`, a column named in `ns` holds only
`f`-outputs (rectangular table). -/
theorem fold_mapCol_out (ns : List String) (f : Cell → Cell)
    (P : Cell → Prop) (hf : ∀ c, P (f c)) (df : DataFrame) (m : String)
    (hm : m ∈ ns) (hwf : wfDF df = true) :
    ∀ c ∈ getColCells (ns.foldl (fun d c => mapCol d c f) df) m, P c := by
  induction ns generalizing df with
  | nil => simp at hm
  | cons a t ih =>
      simp only [List.foldl_cons]
      by_cases hmt : m ∈ t
      · exact ih _ hmt (wfDF_mapCol df a f hwf)
      · have hma : m = a := by
          rcases List.mem_cons.mp hm with h | h
          · exact h
          · exact absurd h hmt
        subst hma
        have hother : getColCells (t.foldl (fun d c => mapCol d c f)
            (mapCol df m f)) m = getColCells (mapCol df m f) m :=
          fold_mapCol_other t f _ m
            (fun n hn hc => hmt (hc ▸ hn))
        rw [hother]
        cases hi : colIdx m df.header with
        | none =>
            intro c hc
            simp [getColCells, mapCol, hi] at hc
        | some i =>
            rw [getColCells_mapCol_same df m f i hi hwf]
            intro c hc
            rw [List.mem_map] at hc
            obtain ⟨c0, _, rfl⟩ := hc
            exact hf c0

/-- Folding `mapCol f` preserves a cell predicate that `f` preserves, on
every column. -/
theorem fold_mapCol_pres (ns : List String) (f : Cell → Cell)
    (P : Cell → Prop) (hf : ∀ c, P c → P (f c)) (df : DataFrame)
    (m : String) (h : ∀ c ∈ getColCells df m, P c) :
    ∀ c ∈ getColCells (ns.foldl (fun d c => mapCol d c f) df) m, P c := by
  induction ns generalizing df with
  | nil => exact h
  | cons a t ih =>
      simp only [List.foldl_cons]
      apply ih
      by_cases hma : m = a
      · subst hma
        cases hi : colIdx m df.header with
        | none => simpa [mapCol, hi] using h
        | some i =>
            intro c hc
            simp only [getColCells, mapCol_header, mapCol, hi,
              List.map_map, List.mem_map] at hc
            obtain ⟨r, hr, rfl⟩ := hc
            simp only [Function.comp, cellAt]
            by_cases hlen : i < r.cells.length
            · rw [List.getD_eq_getElem?_getD, List.getElem?_set_self hlen]
              simp only [Option.getD_some]
              apply hf
              apply h
              simp only [getColCells, hi, List.mem_map]
              exact ⟨r, hr, rfl⟩
            · rw [List.set_eq_of_length_le (by omega)]
              apply h
              simp only [getColCells, hi, List.mem_map]
              exact ⟨r, hr, rfl⟩
      · rw [getColCells_mapCol_other df a m f hma]
        exact h

/-! ### traverseCells lemmas -/

theorem traverseCells_ok_length (f : Cell → Except String Cell)
    (cs cs' : List Cell) (h : traverseCells f cs = .ok cs') :
    cs'.length = cs.length := by
  induction cs generalizing cs' with
  | nil => simp [traverseCells] at h; simp [← h]
  | cons a t ih =>
      simp only [traverseCells] at h
      cases hf : f a with
      | error e => rw [hf] at h; cases h
      | ok c' =>
          rw [hf] at h
          cases ht : traverseCells f t with
          | error e => rw [ht] at h; cases h
          | ok t' =>
              rw [ht] at h
              cases h
              simp [ih t' ht]

theorem traverseCells_error_mem (f : Cell → Except String Cell)
    (cs : List Cell) :
    ∀ e, traverseCells f cs = .error e → ∃ c ∈ cs, ∃ e', f c = .error e' := by
  induction cs with
  | nil => intro e h; simp [traverseCells] at h
  | cons a t ih =>
      intro e h
      simp only [traverseCells] at h
      cases hf : f a with
      | error e' => exact ⟨a, by simp, e', hf⟩
      | ok c' =>
          rw [hf] at h
          cases ht : traverseCells f t with
          | error e2 =>
              obtain ⟨c, hc, he⟩ := ih e2 ht
              exact ⟨c, by simp [hc], he⟩
          | ok t' => rw [ht] at h; cases h

theorem traverseCells_ok_mem (f : Cell → Except String Cell)
    (cs cs' : List Cell) (h : traverseCells f cs = .ok cs') :
    ∀ c' ∈ cs', ∃ c ∈ cs, f c = .ok c' := by
  induction cs generalizing cs' with
  | nil =>
      simp only [traverseCells, Except.ok.injEq] at h
      subst h
      simp
  | cons a t ih =>
      simp only [traverseCells] at h
      cases hf : f a with
      | error e => rw [hf] at h; cases h
      | ok c0 =>
          rw [hf] at h
          cases ht : traverseCells f t with
          | error e => rw [ht] at h; cases h
          | ok t' =>
              rw [ht] at h
              cases h
              intro c' hc'
              rcases List.mem_cons.mp hc' with rfl | hmem
              · exact ⟨a, by simp, hf⟩
              · obtain ⟨c, hc, hfc⟩ := ih t' ht c' hmem
                exact ⟨c, by simp [hc], hfc⟩

/-! ### dedup / resetIndex lemmas -/

theorem dedupRowsAux_sub (seen : List (List Cell)) (rows : List Row) :
    ∀ r ∈ dedupRowsAux seen rows, r ∈ rows := by
  induction rows generalizing seen with
  | nil => simp [dedupRowsAux]
  | cons a t ih =>
      intro r hr
      simp only [dedupRowsAux] at hr
      by_cases hs : a.cells ∈ seen
      · simp only [if_pos hs] at hr
        exact List.mem_cons_of_mem a (ih seen r hr)
      · simp only [if_neg hs] at hr
        rcases List.mem_cons.mp hr with rfl | hmem
        · exact List.mem_cons_self r t
        · exact List.mem_cons_of_mem a (ih _ r hmem)

theorem dedupRowsAux_cells_surj (seen : List (List Cell)) (rows : List Row) :
    ∀ r ∈ rows, r.cells ∉ seen →
      ∃ r' ∈ dedupRowsAux seen rows, r'.cells = r.cells := by
  induction rows generalizing seen with
  | nil => simp
  | cons a t ih =>
      intro r hr hnotseen
      simp only [dedupRowsAux]
      by_cases hs : a.cells ∈ seen
      · simp only [if_pos hs]
        rcases List.mem_cons.mp hr with rfl | hmem
        · exact absurd hs hnotseen
        · exact ih seen r hmem hnotseen
      · simp only [if_neg hs]
        rcases List.mem_cons.mp hr with rfl | hmem
        · exact ⟨r, by simp, rfl⟩
        · by_cases hra : r.cells = a.cells
          · exact ⟨a, by simp, hra.symm⟩
          · obtain ⟨r', hr', hcells⟩ := ih (a.cells :: seen) r hmem
              (by simp [hnotseen, hra])
            exact ⟨r', by simp [hr'], hcells⟩

theorem dedupRowsAux_nodup_id (seen : List (List Cell)) (rows : List Row)
    (hnd : (rows.map Row.cells).Nodup)
    (hseen : ∀ r ∈ rows, r.cells ∉ seen) :
    dedupRowsAux seen rows = rows := by
  induction rows generalizing seen with
  | nil => rfl
  | cons a t ih =>
      simp only [dedupRowsAux, if_neg (hseen a (by simp))]
      congr 1
      apply ih
      · simpa using hnd.of_cons
      · intro r hr
        simp only [List.mem_cons]
        intro hc
        rcases hc with hc | hc
        · rw [List.map_cons] at hnd
          have := List.nodup_cons.mp hnd
          exact this.1 (hc ▸ List.mem_map_of_mem Row.cells hr)
        · exact hseen r (by simp [hr]) hc

theorem resetIndexAux_cells (k : Nat) (rows : List Row) :
    (resetIndexAux k rows).map Row.cells = rows.map Row.cells := by
  induction rows generalizing k with
  | nil => rfl
  | cons a t ih => simp [resetIndexAux, ih]

theorem resetIndexAux_idx (k : Nat) (rows : List Row) :
    (resetIndexAux k rows).map Row.idx = List.range' k rows.length := by
  induction rows generalizing k with
  | nil => rfl
  | cons a t ih => simp [resetIndexAux, ih, List.range']

theorem resetIndexAux_id (k : Nat) (rows : List Row)
    (h : rows.map Row.idx = List.range' k rows.length) :
    resetIndexAux k rows = rows := by
  induction rows generalizing k with
  | nil => rfl
  | cons a t ih =>
      rw [List.map_cons, List.length_cons, List.range'_succ] at h
      obtain ⟨h1, h2⟩ : a.idx = k ∧ t.map Row.idx = List.range' (k + 1) t.length := by
        simpa using h
      subst h1
      simp only [resetIndexAux, ih _ h2]
/-! ### Totality and transitivity of the sort comparison -/

theorem charsLe_total (a b : List Char) :
    charsLe a b = true ∨ charsLe b a = true := by
  induction a generalizing b with
  | nil => left; rfl
  | cons x xs ih =>
      cases b with
      | nil => right; rfl
      | cons y ys =>
          simp only [charsLe]
          rcases Nat.lt_trichotomy x.toNat y.toNat with h | h | h
          · left; simp [h]
          · rcases ih ys with h2 | h2
            · left; simp [h, h2]
            · right; simp [h, h2]
          · right; simp [h]

theorem charsLe_trans (a b c : List Char) (hab : charsLe a b = true)
    (hbc : charsLe b c = true) : charsLe a c = true := by
  induction a generalizing b c with
  | nil => rfl
  | cons x xs ih =>
      cases b with
      | nil => simp [charsLe] at hab
      | cons y ys =>
          cases c with
          | nil => simp [charsLe] at hbc
          | cons z zs =>
              simp only [charsLe] at hab hbc ⊢
              split_ifs at hab hbc ⊢ <;> first
                | rfl
                | omega
                | (exact ih ys zs hab hbc)

theorem cellLe_total (a b : Cell) : cellLe a b = true ∨ cellLe b a = true := by
  cases a <;> cases b <;>
    simp [cellLe, cellRank, dateTripleLe] <;> first
      | omega
      | (apply charsLe_total)

theorem cellLe_trans (a b c : Cell) (hab : cellLe a b = true)
    (hbc : cellLe b c = true) : cellLe a c = true := by
  cases a <;> cases b <;> cases c <;>
    simp only [cellLe, cellRank, dateTripleLe, decide_eq_true_eq]
      at hab hbc ⊢ <;>
    first
      | rfl
      | omega
      | (exact charsLe_trans _ _ _ hab hbc)
/-! ### Frame lemmas for the pipeline steps -/

theorem normalize_column_names_rows (df : DataFrame) :
    (normalize_column_names df).rows = df.rows := rfl

theorem wfDF_normalize_column_names (df : DataFrame)
    (hwf : wfDF df = true) : wfDF (normalize_column_names df) = true := by
  rw [wfDF_iff] at hwf ⊢
  simpa [normalize_column_names] using hwf

theorem convertDateCol_header (df : DataFrame) :
    (convertDateCol df).header = df.header := by
  unfold convertDateCol
  split
  · split
    · next cells heq =>
        obtain ⟨i, hi⟩ := colIdx_isSome_of_mem "date" df.header (by assumption)
        exact setColCells_header_overwrite df "date" cells i hi
    · rfl
  · rfl

theorem convertLabelCol_header (df : DataFrame) :
    (convertLabelCol df).header = df.header := by
  unfold convertLabelCol
  split
  · split
    · next cells heq =>
        obtain ⟨i, hi⟩ := colIdx_isSome_of_mem "label" df.header (by assumption)
        exact setColCells_header_overwrite df "label" cells i hi
    · rfl
  · rfl

theorem convertDateCol_rows_length (df : DataFrame) :
    (convertDateCol df).rows.length = df.rows.length := by
  unfold convertDateCol
  split
  · split
    · next cells heq =>
        obtain ⟨i, hi⟩ := colIdx_isSome_of_mem "date" df.header (by assumption)
        apply setColCells_rows_length
        rw [traverseCells_ok_length _ _ _ heq]
        exact getColCells_length df "date" i hi
    · rfl
  · rfl

theorem convertLabelCol_rows_length (df : DataFrame) :
    (convertLabelCol df).rows.length = df.rows.length := by
  unfold convertLabelCol
  split
  · split
    · next cells heq =>
        obtain ⟨i, hi⟩ := colIdx_isSome_of_mem "label" df.header (by assumption)
        apply setColCells_rows_length
        rw [traverseCells_ok_length _ _ _ heq]
        exact getColCells_length df "label" i hi
    · rfl
  · rfl

theorem wfDF_convertDateCol (df : DataFrame) (hwf : wfDF df = true) :
    wfDF (convertDateCol df) = true := by
  unfold convertDateCol
  split
  · split
    · next cells heq =>
        obtain ⟨i, hi⟩ := colIdx_isSome_of_mem "date" df.header (by assumption)
        apply wfDF_setColCells df _ _ hwf
        rw [traverseCells_ok_length _ _ _ heq]
        exact getColCells_length df "date" i hi
    · exact hwf
  · exact hwf

theorem wfDF_convertLabelCol (df : DataFrame) (hwf : wfDF df = true) :
    wfDF (convertLabelCol df) = true := by
  unfold convertLabelCol
  split
  · split
    · next cells heq =>
        obtain ⟨i, hi⟩ := colIdx_isSome_of_mem "label" df.header (by assumption)
        apply wfDF_setColCells df _ _ hwf
        rw [traverseCells_ok_length _ _ _ heq]
        exact getColCells_length df "label" i hi
    · exact hwf
  · exact hwf

theorem convert_data_types_header (df : DataFrame) :
    (convert_data_types df).header = df.header := by
  unfold convert_data_types
  rw [fold_mapCol_header, convertLabelCol_header, convertDateCol_header]

theorem wfDF_convert_data_types (df : DataFrame) (hwf : wfDF df = true) :
    wfDF (convert_data_types df) = true := by
  unfold convert_data_types
  exact fold_mapCol_wf _ _ _ (wfDF_convertLabelCol _ (wfDF_convertDateCol _ hwf))

theorem fillLabelCol_header (df : DataFrame) :
    (fillLabelCol df).header = df.header := by
  unfold fillLabelCol
  split
  · split
    · exact mapCol_header _ _ _
    · rfl
  · rfl

theorem wfDF_fillLabelCol (df : DataFrame) (hwf : wfDF df = true) :
    wfDF (fillLabelCol df) = true := by
  unfold fillLabelCol
  split
  · split
    · exact wfDF_mapCol _ _ _ hwf
    · exact hwf
  · exact hwf

theorem fold_fillTop_header (ns : List String) (df : DataFrame) :
    (ns.foldl (fun d c =>
      if (getColCells d c).any isNullCell then
        mapCol d c (fillCell (Cell.str "")) else d) df).header =
      df.header := by
  induction ns generalizing df with
  | nil => rfl
  | cons a t ih =>
      simp only [List.foldl_cons]
      rw [ih]
      split
      · exact mapCol_header _ _ _
      · rfl

theorem fold_fillTop_wf (ns : List String) (df : DataFrame)
    (hwf : wfDF df = true) :
    wfDF (ns.foldl (fun d c =>
      if (getColCells d c).any isNullCell then
        mapCol d c (fillCell (Cell.str "")) else d) df) = true := by
  induction ns generalizing df with
  | nil => exact hwf
  | cons a t ih =>
      simp only [List.foldl_cons]
      apply ih
      split
      · exact wfDF_mapCol _ _ _ hwf
      · exact hwf

theorem handle_missing_values_header (df : DataFrame) :
    (handle_missing_values df).header = df.header := by
  unfold handle_missing_values
  split
  · rfl
  · rw [fold_fillTop_header, fillLabelCol_header]

theorem wfDF_handle_missing_values (df : DataFrame) (hwf : wfDF df = true) :
    wfDF (handle_missing_values df) = true := by
  unfold handle_missing_values
  split
  · exact hwf
  · exact fold_fillTop_wf _ _ (wfDF_fillLabelCol _ hwf)

theorem remove_duplicates_header (df : DataFrame) :
    (remove_duplicates df).header = df.header := rfl

theorem wfDF_remove_duplicates (df : DataFrame) (hwf : wfDF df = true) :
    wfDF (remove_duplicates df) = true := by
  rw [wfDF_iff] at hwf ⊢
  intro r hr
  exact hwf r (dedupRowsAux_sub [] df.rows r hr)

theorem clean_dates_header (df : DataFrame) :
    (clean_dates df).header = df.header := by
  unfold clean_dates
  split <;> rfl

theorem mem_resetIndexAux (k : Nat) (rows : List Row) (r : Row)
    (hr : r ∈ resetIndexAux k rows) : ∃ r0 ∈ rows, r.cells = r0.cells := by
  induction rows generalizing k with
  | nil => simp [resetIndexAux] at hr
  | cons a t ih =>
      simp only [resetIndexAux, List.mem_cons] at hr
      rcases hr with rfl | hr
      · exact ⟨a, by simp, rfl⟩
      · obtain ⟨r0, hr0, hc⟩ := ih _ hr
        exact ⟨r0, by simp [hr0], hc⟩

theorem clean_dates_rows_mem (df : DataFrame) (r : Row)
    (hr : r ∈ (clean_dates df).rows) : ∃ r0 ∈ df.rows, r.cells = r0.cells := by
  unfold clean_dates at hr
  cases hi : colIdx "date" df.header with
  | none => rw [hi] at hr; exact ⟨r, hr, rfl⟩
  | some i =>
      rw [hi] at hr
      simp only at hr
      obtain ⟨r1, hr1, hc⟩ := mem_resetIndexAux 0 _ r hr
      have hr2 : r1 ∈ df.rows.filter (fun r => !isNullCell (cellAt r i)) := by
        have hperm := List.perm_insertionSort
          (fun a b => cellLe (cellAt a i) (cellAt b i) = true)
          (df.rows.filter (fun r => !isNullCell (cellAt r i)))
        exact hperm.mem_iff.mp hr1
      exact ⟨r1, List.mem_of_mem_filter hr2, hc⟩

theorem wfDF_clean_dates (df : DataFrame) (hwf : wfDF df = true) :
    wfDF (clean_dates df) = true := by
  rw [wfDF_iff] at hwf ⊢
  rw [clean_dates_header]
  intro r hr
  obtain ⟨r0, hr0, hc⟩ := clean_dates_rows_mem df r hr
  rw [hc]
  exact hwf r0 hr0

theorem normalize_values_header (df : DataFrame) :
    (normalize_values df).header = df.header := by
  unfold normalize_values
  exact fold_mapCol_header _ _ _

theorem wfDF_normalize_values (df : DataFrame) (hwf : wfDF df = true) :
    wfDF (normalize_values df) = true := by
  unfold normalize_values
  exact fold_mapCol_wf _ _ _ hwf
/-! ### Lemmas about `addSentiment` and `create_features` -/

theorem wfDF_addSentiment (d : DataFrame) (hwf : wfDF d = true) :
    wfDF (addSentiment d) = true := by
  unfold addSentiment
  split
  · next hl =>
      obtain ⟨li, hli⟩ := colIdx_isSome_of_mem "label" d.header hl
      apply wfDF_setColCells _ _ _ hwf
      rw [List.length_map]
      exact getColCells_length d "label" li hli
  · exact hwf

theorem mem_addSentiment_header (d : DataFrame) (m : String)
    (hm : m ≠ "sentiment") : m ∈ (addSentiment d).header ↔ m ∈ d.header := by
  unfold addSentiment
  split
  · exact mem_setColCells_header_iff d "sentiment" m _ hm
  · exact Iff.rfl

theorem addSentiment_other (d : DataFrame) (m : String)
    (hm : m ≠ "sentiment") (hwf : wfDF d = true) :
    getColCells (addSentiment d) m = getColCells d m := by
  unfold addSentiment
  split
  · next hl =>
      obtain ⟨li, hli⟩ := colIdx_isSome_of_mem "label" d.header hl
      apply getColCells_setColCells_other d "sentiment" m _ hm hwf
      rw [List.length_map]
      exact getColCells_length d "label" li hli
  · rfl

theorem addSentiment_sent (d : DataFrame) (hwf : wfDF d = true)
    (hl : "label" ∈ d.header) :
    getColCells (addSentiment d) "sentiment" =
      (getColCells d "label").map sentimentCell := by
  unfold addSentiment
  rw [if_pos hl]
  obtain ⟨li, hli⟩ := colIdx_isSome_of_mem "label" d.header hl
  apply getColCells_setColCells_same _ _ _ hwf
  rw [List.length_map]
  exact getColCells_length d "label" li hli

/-- Packaged frame facts for one feature-column assignment. -/
theorem setColFeature_facts (df : DataFrame) (n : String) (vs : List Cell)
    (hv : vs.length = df.rows.length) (hwf : wfDF df = true) :
    wfDF (setColCells df n vs) = true ∧
    (setColCells df n vs).rows.length = df.rows.length ∧
    ∀ m, m ≠ n → ((m ∈ (setColCells df n vs).header ↔ m ∈ df.header) ∧
      getColCells (setColCells df n vs) m = getColCells df m) :=
  ⟨wfDF_setColCells df n vs hwf hv, setColCells_rows_length df n vs hv,
    fun m hm => ⟨mem_setColCells_header_iff df n m vs hm,
      getColCells_setColCells_other df n m vs hm hwf hv⟩⟩

/-- The facts about a completed `create_features` needed by the sentiment
claims: well-formedness is preserved, membership of non-feature column
names is unchanged, the label column's cells are unchanged, and the
sentiment column is the `sentimentCell`-image of the label column. -/
theorem create_features_ok_facts (df out : DataFrame)
    (h : create_features df = .ok out) (hwf : wfDF df = true) :
    wfDF out = true ∧
    (∀ m, m ≠ "sentiment" → m ≠ "year" → m ≠ "month" → m ≠ "day" →
      m ≠ "day_of_week" → m ≠ "quarter" →
      ((m ∈ out.header ↔ m ∈ df.header) ∧
        getColCells out m = getColCells df m)) ∧
    ("label" ∈ df.header →
      getColCells out "sentiment" =
        (getColCells out "label").map sentimentCell) := by
  unfold create_features at h
  by_cases hd : "date" ∈ df.header
  · rw [if_pos hd] at h
    by_cases hdt : isDatetimeLike (getColCells df "date")
    · rw [if_pos hdt] at h
      simp only [Except.ok.injEq] at h
      obtain ⟨di, hdi⟩ := colIdx_isSome_of_mem "date" df.header hd
      have hlen0 : ((getColCells df "date").map yearCell).length =
          df.rows.length := by
        rw [List.length_map]; exact getColCells_length df "date" di hdi
      obtain ⟨hwf1, hlen1, hoth1⟩ :=
        setColFeature_facts df "year" _ hlen0 hwf
      set d1 := setColCells df "year" ((getColCells df "date").map yearCell)
        with hd1
      have hdate1 : getColCells d1 "date" = getColCells df "date" :=
        (hoth1 "date" (by decide)).2
      obtain ⟨di1, hdi1⟩ := colIdx_isSome_of_mem "date" d1.header
        ((hoth1 "date" (by decide)).1.mpr hd)
      have hlen1' : ((getColCells d1 "date").map monthCell).length =
          d1.rows.length := by
        rw [List.length_map, hdate1, hlen1]
        exact getColCells_length df "date" di hdi
      obtain ⟨hwf2, hlen2, hoth2⟩ :=
        setColFeature_facts d1 "month" _ hlen1' hwf1
      set d2 := setColCells d1 "month" ((getColCells d1 "date").map monthCell)
        with hd2
      have hdate2 : getColCells d2 "date" = getColCells df "date" := by
        rw [(hoth2 "date" (by decide)).2, hdate1]
      obtain ⟨di2, hdi2⟩ := colIdx_isSome_of_mem "date" d2.header
        ((hoth2 "date" (by decide)).1.mpr ((hoth1 "date" (by decide)).1.mpr hd))
      have hlen2' : ((getColCells d2 "date").map dayCell).length =
          d2.rows.length := by
        rw [List.length_map, hdate2, hlen2, hlen1]
        exact getColCells_length df "date" di hdi
      obtain ⟨hwf3, hlen3, hoth3⟩ := setColFeature_facts d2 "day" _ hlen2' hwf2
      set d3 := setColCells d2 "day" ((getColCells d2 "date").map dayCell)
        with hd3
      have hdate3 : getColCells d3 "date" = getColCells df "date" := by
        rw [(hoth3 "date" (by decide)).2, hdate2]
      have hmem3 : "date" ∈ d3.header :=
        (hoth3 "date" (by decide)).1.mpr ((hoth2 "date" (by decide)).1.mpr
          ((hoth1 "date" (by decide)).1.mpr hd))
      have hlen3' : ((getColCells d3 "date").map dowCell).length =
          d3.rows.length := by
        rw [List.length_map, hdate3, hlen3, hlen2, hlen1]
        exact getColCells_length df "date" di hdi
      obtain ⟨hwf4, hlen4, hoth4⟩ :=
        setColFeature_facts d3 "day_of_week" _ hlen3' hwf3
      set d4 := setColCells d3 "day_of_week"
        ((getColCells d3 "date").map dowCell) with hd4
      have hdate4 : getColCells d4 "date" = getColCells df "date" := by
        rw [(hoth4 "date" (by decide)).2, hdate3]
      have hlen4' : ((getColCells d4 "date").map quarterCell).length =
          d4.rows.length := by
        rw [List.length_map, hdate4, hlen4, hlen3, hlen2, hlen1]
        exact getColCells_length df "date" di hdi
      obtain ⟨hwf5, hlen5, hoth5⟩ :=
        setColFeature_facts d4 "quarter" _ hlen4' hwf4
      set d5 := setColCells d4 "quarter"
        ((getColCells d4 "date").map quarterCell) with hd5
      subst h
      have hlab5 : ∀ m, m ≠ "year" → m ≠ "month" → m ≠ "day" →
          m ≠ "day_of_week" → m ≠ "quarter" →
          ((m ∈ d5.header ↔ m ∈ df.header) ∧
            getColCells d5 m = getColCells df m) := by
        intro m h1 h2 h3 h4 h5
        constructor
        · rw [(hoth5 m h5).1, (hoth4 m h4).1, (hoth3 m h3).1, (hoth2 m h2).1,
            (hoth1 m h1).1]
        · rw [(hoth5 m h5).2, (hoth4 m h4).2, (hoth3 m h3).2, (hoth2 m h2).2,
            (hoth1 m h1).2]
      refine ⟨wfDF_addSentiment d5 hwf5, ?_, ?_⟩
      · intro m hs h1 h2 h3 h4 h5
        obtain ⟨hmem, hcol⟩ := hlab5 m h1 h2 h3 h4 h5
        exact ⟨(mem_addSentiment_header d5 m hs).trans hmem,
          (addSentiment_other d5 m hs hwf5).trans hcol⟩
      · intro hl
        have hl5 : "label" ∈ d5.header :=
          (hlab5 "label" (by decide) (by decide) (by decide) (by decide)
            (by decide)).1.mpr hl
        rw [addSentiment_sent d5 hwf5 hl5,
          addSentiment_other d5 "label" (by decide) hwf5]
    · rw [if_neg hdt] at h
      cases h
  · rw [if_neg hd] at h
    simp only [Except.ok.injEq] at h
    subst h
    refine ⟨wfDF_addSentiment df hwf, ?_, ?_⟩
    · intro m hs _ _ _ _ _
      exact ⟨mem_addSentiment_header df m hs,
        addSentiment_other df m hs hwf⟩
    · intro hl
      rw [addSentiment_sent df hwf hl,
        addSentiment_other df "label" (by decide) hwf]

/-! ### Claim C1: the sentiment column -/

theorem sentimentCell_spec (c : Cell) :
    (sentimentCell c = Cell.str "Positivo" ↔ c = Cell.int 1) ∧
    (sentimentCell c = Cell.str "Negativo" ↔ c = Cell.int 0) := by
  unfold sentimentCell
  split_ifs with h0 h1 <;> subst_eqs <;> simp_all

/-- The header-preservation chain for steps 2–6. -/
theorem steps2to6_header (df : DataFrame) :
    (normalize_values (clean_dates (remove_duplicates (handle_missing_values
      (convert_data_types df))))).header = df.header := by
  rw [normalize_values_header, clean_dates_header, remove_duplicates_header,
    handle_missing_values_header, convert_data_types_header]

/-- The well-formedness chain for steps 2–6. -/
theorem steps2to6_wf (df : DataFrame) (hwf : wfDF df = true) :
    wfDF (normalize_values (clean_dates (remove_duplicates
      (handle_missing_values (convert_data_types df))))) = true :=
  wfDF_normalize_values _ (wfDF_clean_dates _ (wfDF_remove_duplicates _
    (wfDF_handle_missing_values _ (wfDF_convert_data_types _ hwf))))

/-- **C1 (amended)** — In every completed `transform_all` output that has
a label column, the derived sentiment column satisfies
`sentiment = "Positivo"` iff `label = 1`, and `sentiment = "Negativo"`
iff `label = 0`, at every row position.  (The source maps the labels to
the Spanish strings `'Positivo'`/`'Negativo'`, not to
`"Positive"`/`"Negative"` as the claim states.) -/
theorem C1_sentiment_label_iff (df out : DataFrame) (hwf : wfDF df = true)
    (h : transform_all df = .ok out) (hl : "label" ∈ out.header) :
    ∀ i : Nat,
      ((getColCells out "sentiment").getD i Cell.null = Cell.str "Positivo" ↔
        (getColCells out "label").getD i Cell.null = Cell.int 1) ∧
      ((getColCells out "sentiment").getD i Cell.null = Cell.str "Negativo" ↔
        (getColCells out "label").getD i Cell.null = Cell.int 0) := by
  unfold transform_all at h
  set s6 := normalize_values (clean_dates (remove_duplicates
    (handle_missing_values (convert_data_types
      (normalize_column_names df))))) with hs6
  have hwf6 : wfDF s6 = true :=
    steps2to6_wf _ (wfDF_normalize_column_names df hwf)
  obtain ⟨hwfo, hoth, hsent⟩ := create_features_ok_facts s6 out h hwf6
  have hl6 : "label" ∈ s6.header :=
    ((hoth "label" (by decide) (by decide) (by decide) (by decide)
      (by decide) (by decide)).1).mp hl
  have hsc : getColCells out "sentiment" =
      (getColCells out "label").map sentimentCell := hsent hl6
  intro i
  by_cases hi : i < (getColCells out "label").length
  · have h1 : (getColCells out "sentiment").getD i Cell.null =
        sentimentCell ((getColCells out "label").getD i Cell.null) := by
      simp only [hsc, List.getD_eq_getElem?_getD, List.getElem?_map,
        List.getElem?_eq_getElem hi, Option.map_some', Option.getD_some]
    rw [h1]
    exact sentimentCell_spec _
  · have h1 : (getColCells out "sentiment").getD i Cell.null = Cell.null := by
      rw [hsc]
      apply List.getD_eq_default
      rw [List.length_map]
      omega
    have h2 : (getColCells out "label").getD i Cell.null = Cell.null := by
      apply List.getD_eq_default
      omega
    rw [h1, h2]
    refine ⟨⟨fun hc => ?_, fun hc => ?_⟩, ⟨fun hc => ?_, fun hc => ?_⟩⟩ <;>
      cases hc

/-- Counterexample to C1 as stated: a completed run whose single row has
`label = 1` but `sentiment = "Positivo"`, which is not the claimed
`"Positive"`; the claimed biconditional
`sentiment = "Positive" ↔ label = 1` fails at this row. -/
theorem C1_counterexample :
    (transform_all dfLabelOnly).map (fun out => getColCells out "label") =
      .ok [Cell.int 1] ∧
    (transform_all dfLabelOnly).map (fun out => getColCells out "sentiment") =
      .ok [Cell.str "Positivo"] ∧
    ¬((Cell.str "Positivo" = Cell.str "Positive") ↔
      (Cell.int 1 = Cell.int 1)) := by
  have h1 : (transform_all dfLabelOnly).map
      (fun out => getColCells out "label") = .ok [Cell.int 1] := by decide
  have h2 : (transform_all dfLabelOnly).map
      (fun out => getColCells out "sentiment") =
        .ok [Cell.str "Positivo"] := by decide
  refine ⟨h1, h2, fun hiff => ?_⟩
  have := hiff.mpr rfl
  simp at this

/-- Witness for C1 at a concrete completed run. -/
theorem C1_sentiment_label_iff_witness :
    wfDF dfLabelOnly = true ∧
    transform_all dfLabelOnly = .ok dfLabelOnlyOut ∧
    "label" ∈ dfLabelOnlyOut.header ∧
    ((getColCells dfLabelOnlyOut "sentiment").getD 0 Cell.null =
        Cell.str "Positivo" ↔
      (getColCells dfLabelOnlyOut "label").getD 0 Cell.null = Cell.int 1) := by
  have h1 : wfDF dfLabelOnly = true := by decide
  have h2 : transform_all dfLabelOnly = .ok dfLabelOnlyOut := by decide
  have h3 : "label" ∈ dfLabelOnlyOut.header := by decide
  exact ⟨h1, h2, h3, (C1_sentiment_label_iff dfLabelOnly dfLabelOnlyOut h1 h2 h3 0).1⟩

/-! ### Claim C2: failure semantics of the type-coercion step -/

theorem toDatetimeCell_error_shape (c : Cell) (e : String)
    (h : toDatetimeCell c = .error e) :
    isNullCell c = false ∧ isDatetimeCell c = false := by
  cases c with
  | null => simp [toDatetimeCell] at h
  | int n => exact ⟨rfl, rfl⟩
  | date y m d => simp [toDatetimeCell] at h
  | str s => exact ⟨rfl, rfl⟩

theorem toDatetimeCell_ok_shape (c c' : Cell)
    (h : toDatetimeCell c = .ok c') : isDatetimeCell c' = true := by
  cases c with
  | null => simp [toDatetimeCell] at h; simp [← h, isDatetimeCell]
  | int n => simp [toDatetimeCell] at h
  | date y m d => simp [toDatetimeCell] at h; simp [← h, isDatetimeCell]
  | str s =>
      simp only [toDatetimeCell] at h
      cases hp : parseDate s with
      | none => rw [hp] at h; cases h
      | some t =>
          obtain ⟨y, m, d⟩ := t
          rw [hp] at h
          cases h
          rfl

theorem startsWithTop_ne (n : String) (h : startsWithTop n = true) :
    n ≠ "date" ∧ n ≠ "label" ∧ n ≠ "sentiment" ∧ n ≠ "year" ∧
    n ≠ "month" ∧ n ≠ "day" ∧ n ≠ "day_of_week" ∧ n ≠ "quarter" := by
  refine ⟨?_, ?_, ?_, ?_, ?_, ?_, ?_, ?_⟩ <;>
    (intro hc; subst hc; simp [startsWithTop] at h)

theorem topCols_starts (df : DataFrame) (n : String) (hn : n ∈ topCols df) :
    startsWithTop n = true :=
  (List.mem_filter.mp hn).2

/-- Transport of a whole-column property along a rows-surjective,
header-preserving transformation. -/
theorem allCol_of_rows_sub (df df' : DataFrame) (n : String)
    (P : Cell → Prop)
    (hsub : ∀ r ∈ df'.rows, ∃ r0 ∈ df.rows, r.cells = r0.cells)
    (hh : df'.header = df.header)
    (h : ∀ c ∈ getColCells df n, P c) :
    ∀ c ∈ getColCells df' n, P c := by
  intro c hc
  unfold getColCells at hc
  rw [hh] at hc
  cases hi : colIdx n df.header with
  | none => rw [hi] at hc; cases hc
  | some i =>
      rw [hi] at hc
      rw [List.mem_map] at hc
      obtain ⟨r, hr, rfl⟩ := hc
      obtain ⟨r0, hr0, hcells⟩ := hsub r hr
      have hca : cellAt r i = cellAt r0 i := by rw [cellAt, cellAt, hcells]
      rw [hca]
      apply h
      simp only [getColCells, hi, List.mem_map]
      exact ⟨r0, hr0, rfl⟩

theorem resetIndexAux_surj (k : Nat) (rows : List Row) :
    ∀ r ∈ rows, ∃ r' ∈ resetIndexAux k rows, r'.cells = r.cells := by
  induction rows generalizing k with
  | nil => simp
  | cons a t ih =>
      intro r hr
      rcases List.mem_cons.mp hr with rfl | hmem
      · exact ⟨{ r with idx := k }, by simp [resetIndexAux], rfl⟩
      · obtain ⟨r', hr', hc⟩ := ih (k + 1) r hmem
        exact ⟨r', by simp [resetIndexAux, hr'], hc⟩

theorem fold_fillTop_other (ns : List String) (df : DataFrame) (m : String)
    (hm : ∀ n ∈ ns, n ≠ m) :
    getColCells (ns.foldl (fun d c =>
      if (getColCells d c).any isNullCell then
        mapCol d c (fillCell (Cell.str "")) else d) df) m =
      getColCells df m := by
  induction ns generalizing df with
  | nil => rfl
  | cons a t ih =>
      simp only [List.foldl_cons]
      rw [ih _ (fun n hn => hm n (by simp [hn]))]
      split
      · exact getColCells_mapCol_other df a m _
          (fun hc => hm a (by simp) hc.symm)
      · rfl

theorem fillLabelCol_other (df : DataFrame) (m : String) (hm : m ≠ "label") :
    getColCells (fillLabelCol df) m = getColCells df m := by
  unfold fillLabelCol
  split
  · split
    · exact getColCells_mapCol_other df "label" m _ hm
    · rfl
  · rfl

theorem convertLabelCol_other (df : DataFrame) (m : String)
    (hm : m ≠ "label") (hwf : wfDF df = true) :
    getColCells (convertLabelCol df) m = getColCells df m := by
  unfold convertLabelCol
  split
  · next hl =>
      split
      · next cells heq =>
          obtain ⟨li, hli⟩ := colIdx_isSome_of_mem "label" df.header hl
          apply getColCells_setColCells_other df "label" m cells hm hwf
          rw [traverseCells_ok_length _ _ _ heq]
          exact getColCells_length df "label" li hli
      · rfl
  · rfl

/-- The date column's cells after steps 3–6, as a predicate transport. -/
theorem allColDate_steps3to6 (df : DataFrame) (P : Cell → Prop)
    (h : ∀ c ∈ getColCells df "date", P c) :
    ∀ c ∈ getColCells (normalize_values (clean_dates (remove_duplicates
      (handle_missing_values df)))) "date", P c := by
  have h3 : ∀ c ∈ getColCells (handle_missing_values df) "date", P c := by
    unfold handle_missing_values
    split
    · exact h
    · rw [fold_fillTop_other _ _ _
        (fun n hn => ((startsWithTop_ne n (topCols_starts _ n hn)).1)),
        fillLabelCol_other df "date" (by decide)]
      exact h
  have h4 : ∀ c ∈ getColCells (remove_duplicates
      (handle_missing_values df)) "date", P c :=
    allCol_of_rows_sub (handle_missing_values df) _ "date" P
      (fun r hr => ⟨r, dedupRowsAux_sub [] _ r hr, rfl⟩) rfl h3
  have h5 : ∀ c ∈ getColCells (clean_dates (remove_duplicates
      (handle_missing_values df))) "date", P c :=
    allCol_of_rows_sub (remove_duplicates (handle_missing_values df)) _
      "date" P (fun r hr => clean_dates_rows_mem _ r hr)
      (clean_dates_header _) h4
  unfold normalize_values
  rw [fold_mapCol_other _ _ _ _
    (fun n hn => ((startsWithTop_ne n (topCols_starts _ n hn)).1))]
  exact h5

/-- Eliminate a whole-column existential into an index and a row. -/
theorem exCol_elim (df : DataFrame) (n : String) (Q : Cell → Prop)
    (h : ∃ c ∈ getColCells df n, Q c) :
    ∃ i, colIdx n df.header = some i ∧ ∃ r ∈ df.rows, Q (cellAt r i) := by
  obtain ⟨c, hc, hQ⟩ := h
  unfold getColCells at hc
  revert hc
  cases hi : colIdx n df.header with
  | none => intro hc; simp at hc
  | some i =>
      intro hc
      simp only [List.mem_map] at hc
      obtain ⟨r, hr, rfl⟩ := hc
      exact ⟨i, rfl, r, hr, hQ⟩

/-- Introduce a whole-column existential from an index and a row. -/
theorem exCol_intro (df : DataFrame) (n : String) (Q : Cell → Prop)
    (i : Nat) (hi : colIdx n df.header = some i) (r : Row)
    (hr : r ∈ df.rows) (hQ : Q (cellAt r i)) :
    ∃ c ∈ getColCells df n, Q c := by
  refine ⟨cellAt r i, ?_, hQ⟩
  unfold getColCells
  simp only [hi]
  exact List.mem_map_of_mem _ hr

/-- Transport of a whole-column existence along a transformation whose
rows contain (cell-wise) all the old rows. -/
theorem exCol_of_rows_surj (df df' : DataFrame) (n : String)
    (Q : Cell → Prop)
    (hsurj : ∀ r ∈ df.rows, ∃ r' ∈ df'.rows, r'.cells = r.cells)
    (hh : df'.header = df.header)
    (h : ∃ c ∈ getColCells df n, Q c) :
    ∃ c ∈ getColCells df' n, Q c := by
  obtain ⟨i, hi, r, hr, hQ⟩ := exCol_elim df n Q h
  obtain ⟨r', hr', hcells⟩ := hsurj r hr
  apply exCol_intro df' n Q i _ r' hr'
  · rw [cellAt, hcells]
    exact hQ
  · rw [hh]
    exact hi

/-- A non-null row survives `_clean_dates` with its cells intact. -/
theorem clean_dates_surj_nonnull (df : DataFrame) (i : Nat)
    (hi : colIdx "date" df.header = some i) (r : Row) (hr : r ∈ df.rows)
    (hnn : isNullCell (cellAt r i) = false) :
    ∃ r' ∈ (clean_dates df).rows, r'.cells = r.cells := by
  unfold clean_dates
  simp only [hi]
  have hkept : r ∈ df.rows.filter (fun r => !isNullCell (cellAt r i)) := by
    rw [List.mem_filter]
    exact ⟨hr, by rw [hnn]; rfl⟩
  have hsorted : r ∈ List.insertionSort
      (fun a b => cellLe (cellAt a i) (cellAt b i) = true)
      (df.rows.filter (fun r => !isNullCell (cellAt r i))) :=
    (List.perm_insertionSort _ _).mem_iff.mpr hkept
  exact resetIndexAux_surj 0 _ r hsorted

/-- An offending (non-null, non-datetime) date cell survives steps 3-6. -/
theorem exColDate_steps3to6 (df : DataFrame) (Q : Cell → Prop)
    (hQnn : ∀ c, Q c → isNullCell c = false)
    (h : ∃ c ∈ getColCells df "date", Q c) :
    ∃ c ∈ getColCells (normalize_values (clean_dates (remove_duplicates
      (handle_missing_values df)))) "date", Q c := by
  have h3 : ∃ c ∈ getColCells (handle_missing_values df) "date", Q c := by
    unfold handle_missing_values
    split
    · exact h
    · rw [fold_fillTop_other _ _ _
        (fun n hn => ((startsWithTop_ne n (topCols_starts _ n hn)).1)),
        fillLabelCol_other df "date" (by decide)]
      exact h
  have h4 : ∃ c ∈ getColCells (remove_duplicates
      (handle_missing_values df)) "date", Q c :=
    exCol_of_rows_surj (handle_missing_values df) _ "date" Q
      (fun r hr => dedupRowsAux_cells_surj [] _ r hr (by simp)) rfl h3
  set d4 := remove_duplicates (handle_missing_values df) with hd4
  have h5 : ∃ c ∈ getColCells (clean_dates d4) "date", Q c := by
    obtain ⟨i, hi, r, hr, hQr⟩ := exCol_elim d4 "date" Q h4
    obtain ⟨r', hr', hcells⟩ :=
      clean_dates_surj_nonnull d4 i hi r hr (hQnn _ hQr)
    apply exCol_intro (clean_dates d4) "date" Q i _ r' hr'
    · rw [cellAt, hcells]
      exact hQr
    · rw [clean_dates_header]
      exact hi
  obtain ⟨c, hc, hQ⟩ := h5
  unfold normalize_values
  rw [fold_mapCol_other _ _ _ _
    (fun n hn => ((startsWithTop_ne n (topCols_starts _ n hn)).1))]
  exact ⟨c, hc, hQ⟩

theorem isDatetimeLike_iff (cells : List Cell) :
    isDatetimeLike cells = true ↔ ∀ c ∈ cells, isDatetimeCell c = true := by
  simp [isDatetimeLike, List.all_eq_true]

theorem create_features_ok_exists (d : DataFrame)
    (h : "date" ∉ d.header ∨ isDatetimeLike (getColCells d "date") = true) :
    ∃ out, create_features d = .ok out := by
  unfold create_features
  rcases h with h | h
  · rw [if_neg h]
    exact ⟨_, rfl⟩
  · by_cases hd : "date" ∈ d.header
    · rw [if_pos hd, if_pos h]
      exact ⟨_, rfl⟩
    · rw [if_neg hd]
      exact ⟨_, rfl⟩

theorem create_features_error_exists (d : DataFrame)
    (hd : "date" ∈ d.header)
    (hdt : isDatetimeLike (getColCells d "date") = false) :
    ∃ e, create_features d = .error e := by
  unfold create_features
  rw [if_pos hd, if_neg (by rw [hdt]; exact fun hc => Bool.false_ne_true hc)]
  exact ⟨_, rfl⟩

/-- **C2** — If parsing the date column as a whole fails during the
type-coercion step, `transform_all` aborts with an error rather than
completing (the coercion failure itself is caught, but `_create_features`
then applies the `.dt` accessor to the unconverted column, which raises
out of `transform_all`); by contrast, a failure to coerce the label
column to int is non-fatal — the coercion step never raises — and the
pipeline runs to completion whenever the date column is absent or parsed
successfully. -/
theorem C2_date_fatal_label_nonfatal (df dfb : DataFrame) (e : String)
    (hwf : wfDF df = true) (hwfb : wfDF dfb = true) :
    (("date" ∈ (normalize_column_names df).header →
      traverseCells toDatetimeCell
        (getColCells (normalize_column_names df) "date") = .error e →
      ∃ e', transform_all df = .error e')) ∧
    ((∃ e2, traverseCells astypeIntCell
        (getColCells (convertDateCol (normalize_column_names dfb)) "label") =
          .error e2) →
      ("date" ∉ (normalize_column_names dfb).header ∨
        ∃ cells, traverseCells toDatetimeCell
          (getColCells (normalize_column_names dfb) "date") = .ok cells) →
      ∃ out, transform_all dfb = .ok out) := by
  constructor
  · intro hd herr
    set s1 := normalize_column_names df with hs1
    have hwf1 : wfDF s1 = true := wfDF_normalize_column_names df hwf
    have hs2 : convertDateCol s1 = s1 := by
      unfold convertDateCol
      rw [if_pos hd, herr]
    obtain ⟨cbad, hcbad, e', hebad⟩ :=
      traverseCells_error_mem toDatetimeCell _ e herr
    obtain ⟨hnn, hndt⟩ := toDatetimeCell_error_shape cbad e' hebad
    -- the offending cell survives the label block and the headline block
    have hconv : ∃ c ∈ getColCells (convert_data_types s1) "date",
        (isNullCell c = false ∧ isDatetimeCell c = false) := by
      unfold convert_data_types
      rw [fold_mapCol_other _ _ _ _
        (fun n hn => ((startsWithTop_ne n (topCols_starts _ n hn)).1)),
        convertLabelCol_other _ "date" (by decide) (by rw [hs2]; exact hwf1),
        hs2]
      exact ⟨cbad, hcbad, hnn, hndt⟩
    have hs6 : ∃ c ∈ getColCells (normalize_values (clean_dates
        (remove_duplicates (handle_missing_values
          (convert_data_types s1))))) "date",
        (isNullCell c = false ∧ isDatetimeCell c = false) :=
      exColDate_steps3to6 _ _ (fun c hc => hc.1) hconv
    have hmem6 : "date" ∈ (normalize_values (clean_dates (remove_duplicates
        (handle_missing_values (convert_data_types s1))))).header := by
      rw [steps2to6_header]
      exact hd
    obtain ⟨c6, hc6, hnn6, hndt6⟩ := hs6
    have hfalse : isDatetimeLike (getColCells (normalize_values (clean_dates
        (remove_duplicates (handle_missing_values
          (convert_data_types s1))))) "date") = false := by
      cases hb : isDatetimeLike (getColCells (normalize_values (clean_dates
          (remove_duplicates (handle_missing_values
            (convert_data_types s1))))) "date") with
      | false => rfl
      | true =>
          have := (isDatetimeLike_iff _).mp hb c6 hc6
          rw [hndt6] at this
          cases this
    obtain ⟨eabort, habort⟩ := create_features_error_exists _ hmem6 hfalse
    exact ⟨eabort, habort⟩
  · intro _ hdate
    set s1 := normalize_column_names dfb with hs1
    have hwf1 : wfDF s1 = true := wfDF_normalize_column_names dfb hwfb
    apply create_features_ok_exists
    rcases hdate with hnd | ⟨cells, hok⟩
    · left
      rw [steps2to6_header]
      exact hnd
    · right
      by_cases hd : "date" ∈ s1.header
      · obtain ⟨di, hdi⟩ := colIdx_isSome_of_mem "date" s1.header hd
        have hs2col : getColCells (convertDateCol s1) "date" = cells := by
          unfold convertDateCol
          rw [if_pos hd, hok]
          apply getColCells_setColCells_same _ _ _ hwf1
          rw [traverseCells_ok_length _ _ _ hok]
          exact getColCells_length s1 "date" di hdi
        have hall2 : ∀ c ∈ getColCells (convertDateCol s1) "date",
            isDatetimeCell c = true := by
          rw [hs2col]
          intro c hc
          obtain ⟨c0, _, hc0⟩ := traverseCells_ok_mem _ _ _ hok c hc
          exact toDatetimeCell_ok_shape c0 c hc0
        have hallconv : ∀ c ∈ getColCells (convert_data_types s1) "date",
            isDatetimeCell c = true := by
          unfold convert_data_types
          rw [fold_mapCol_other _ _ _ _
            (fun n hn => ((startsWithTop_ne n (topCols_starts _ n hn)).1)),
            convertLabelCol_other _ "date" (by decide)
              (wfDF_convertDateCol _ hwf1)]
          exact hall2
        have hall6 := allColDate_steps3to6 (convert_data_types s1) _ hallconv
        rw [isDatetimeLike_iff]
        exact hall6
      · -- no date column: the .dt guard is not reached, but then the left
        -- disjunct applies; derive datetime-likeness vacuously instead
        have : getColCells (normalize_values (clean_dates (remove_duplicates
            (handle_missing_values (convert_data_types s1))))) "date" = [] := by
          unfold getColCells
          rw [steps2to6_header]
          rw [(colIdx_eq_none_iff "date" s1.header).mpr hd]
        rw [this]
        rfl

/-- Witness for C2: a table whose date column fails to parse makes
`transform_all` raise, and a table whose label column fails to coerce
(date column absent) still completes. -/
theorem C2_date_fatal_label_nonfatal_witness :
    (∃ e', transform_all
      { header := ["date"], rows := [⟨0, [.str "garbage"]⟩] } = .error e') ∧
    (∃ out, transform_all
      { header := ["label"], rows := [⟨0, [.str "abc"]⟩] } = .ok out) := by
  have h := C2_date_fatal_label_nonfatal
    { header := ["date"], rows := [⟨0, [.str "garbage"]⟩] }
    { header := ["label"], rows := [⟨0, [.str "abc"]⟩] }
    "could not parse date garbage" (by decide) (by decide)
  exact ⟨h.1 (by decide) (by decide),
    h.2 ⟨"invalid literal for int: abc", by decide⟩ (Or.inl (by decide))⟩

/-! ### Claim C5: the date-validation step -/

theorem resetIndexAux_length (k : Nat) (rows : List Row) :
    (resetIndexAux k rows).length = rows.length := by
  induction rows generalizing k with
  | nil => rfl
  | cons a t ih => simp [resetIndexAux, ih]

theorem resetIndexAux_pairwise (S : List Cell → List Cell → Prop) (k : Nat)
    (rows : List Row)
    (h : List.Pairwise (fun a b => S a.cells b.cells) rows) :
    List.Pairwise (fun a b => S a.cells b.cells) (resetIndexAux k rows) := by
  induction rows generalizing k with
  | nil => exact List.Pairwise.nil
  | cons a t ih =>
      simp only [resetIndexAux]
      rcases List.pairwise_cons.mp h with ⟨hhead, htail⟩
      refine List.Pairwise.cons ?_ (ih _ htail)
      intro b hb
      obtain ⟨r0, hr0, hcells⟩ := mem_resetIndexAux _ _ b hb
      have hS := hhead r0 hr0
      simpa [hcells] using hS

/-- **C5 (amended)** — After the Transformer's date-validation step
(`_clean_dates`, run in pipeline position), every row whose date cell is
still null has been dropped, the date column is monotonically
non-decreasing across row order, and the row index is contiguous from
zero.  (Rows with an *unparseable but non-null* date are not dropped:
when whole-column parsing failed in step 2 they survive as strings, which
is what the counterexample exhibits.) -/
theorem C5_clean_dates_spec (df : DataFrame)
    (hd : "date" ∈ (normalize_column_names df).header) :
    (∀ c ∈ getColCells (transformThroughCleanDates df) "date",
      isNullCell c = false) ∧
    List.Pairwise (fun a b => cellLe a b = true)
      (getColCells (transformThroughCleanDates df) "date") ∧
    (transformThroughCleanDates df).rows.map Row.idx =
      List.range (transformThroughCleanDates df).rows.length := by
  unfold transformThroughCleanDates
  set d4 := remove_duplicates (handle_missing_values (convert_data_types
    (normalize_column_names df))) with hd4
  have hmem : "date" ∈ d4.header := by
    rw [hd4, remove_duplicates_header, handle_missing_values_header,
      convert_data_types_header]
    exact hd
  obtain ⟨i, hi⟩ := colIdx_isSome_of_mem "date" d4.header hmem
  have hrows : (clean_dates d4).rows = resetIndexAux 0
      (List.insertionSort (fun a b => cellLe (cellAt a i) (cellAt b i) = true)
        (d4.rows.filter (fun r => !isNullCell (cellAt r i)))) := by
    unfold clean_dates
    simp only [hi]
  have hidx : colIdx "date" (clean_dates d4).header = some i := by
    rw [clean_dates_header]
    exact hi
  have hcol : getColCells (clean_dates d4) "date" =
      (clean_dates d4).rows.map (fun r => cellAt r i) := by
    unfold getColCells
    simp only [hidx]
  refine ⟨?_, ?_, ?_⟩
  · intro c hc
    rw [hcol, hrows] at hc
    rw [List.mem_map] at hc
    obtain ⟨r, hr, rfl⟩ := hc
    obtain ⟨r0, hr0, hcells⟩ := mem_resetIndexAux _ _ r hr
    have hr1 : r0 ∈ d4.rows.filter (fun r => !isNullCell (cellAt r i)) :=
      (List.perm_insertionSort _ _).mem_iff.mp hr0
    have hp := List.of_mem_filter hr1
    rw [cellAt, hcells, ← cellAt]
    revert hp
    cases isNullCell (cellAt r0 i) <;> simp
  · haveI : IsTotal Row
        (fun a b => cellLe (cellAt a i) (cellAt b i) = true) :=
      ⟨fun a b => cellLe_total _ _⟩
    haveI : IsTrans Row
        (fun a b => cellLe (cellAt a i) (cellAt b i) = true) :=
      ⟨fun a b c => cellLe_trans _ _ _⟩
    have hsorted : List.Pairwise
        (fun a b => cellLe (cellAt a i) (cellAt b i) = true)
        (List.insertionSort
          (fun a b => cellLe (cellAt a i) (cellAt b i) = true)
          (d4.rows.filter (fun r => !isNullCell (cellAt r i)))) :=
      List.sorted_insertionSort _ _
    have hreset := resetIndexAux_pairwise
      (fun x y => cellLe (x.getD i Cell.null) (y.getD i Cell.null) = true)
      0 _ hsorted
    rw [hcol, hrows]
    rw [List.pairwise_map]
    exact hreset
  · rw [hrows, resetIndexAux_idx, resetIndexAux_length, List.range_eq_range']

/-- The two-row table whose second date is unparseable. -/
def df5ce : DataFrame :=
  { header := ["date"],
    rows := [⟨0, [.str "2020-01-01"]⟩, ⟨1, [.str "garbage"]⟩] }

/-- Counterexample to C5 as stated: after the date-validation step the
row with the unparseable (but non-null) date `"garbage"` is still
present — whole-column date parsing failed in step 2, so the value never
became null and `dropna` does not remove it. -/
theorem C5_counterexample :
    (transformThroughCleanDates df5ce).rows =
      [⟨0, [.str "2020-01-01"]⟩, ⟨1, [.str "garbage"]⟩] ∧
    parseDate "garbage" = none ∧ Cell.str "garbage" ≠ Cell.null := by
  refine ⟨by decide, by decide, by decide⟩

/-- Witness for C5 at a concrete table with a null date and unsorted
rows. -/
theorem C5_clean_dates_spec_witness :
    "date" ∈ (normalize_column_names
      { header := ["date"],
        rows := [⟨0, [.str "2020-01-02"]⟩, ⟨1, [.null]⟩,
                 ⟨2, [.str "2020-01-01"]⟩] }).header ∧
    (∀ c ∈ getColCells (transformThroughCleanDates
      { header := ["date"],
        rows := [⟨0, [.str "2020-01-02"]⟩, ⟨1, [.null]⟩,
                 ⟨2, [.str "2020-01-01"]⟩] }) "date",
      isNullCell c = false) ∧
    List.Pairwise (fun a b => cellLe a b = true)
      (getColCells (transformThroughCleanDates
        { header := ["date"],
          rows := [⟨0, [.str "2020-01-02"]⟩, ⟨1, [.null]⟩,
                   ⟨2, [.str "2020-01-01"]⟩] }) "date") := by
  have hd : "date" ∈ (normalize_column_names
      { header := ["date"],
        rows := [⟨0, [.str "2020-01-02"]⟩, ⟨1, [.null]⟩,
                 ⟨2, [.str "2020-01-01"]⟩] }).header := by decide
  have h := C5_clean_dates_spec
    { header := ["date"],
      rows := [⟨0, [.str "2020-01-02"]⟩, ⟨1, [.null]⟩,
               ⟨2, [.str "2020-01-01"]⟩] } hd
  exact ⟨hd, h.1, h.2.1⟩

/-! ### Claim C6: the null-handling step -/

theorem fillCell_empty_idem (c : Cell) :
    fillCell (Cell.str "") (fillCell (Cell.str "") c) =
      fillCell (Cell.str "") c := by
  unfold fillCell
  cases c <;> simp

theorem map_fill_of_no_null (cells : List Cell)
    (h : cells.any isNullCell = false) :
    cells.map (fillCell (Cell.str "")) = cells := by
  apply list_map_eq_self
  intro c hc
  unfold fillCell
  rw [List.any_eq_false] at h
  have := h c hc
  cases c <;> simp_all [isNullCell]

theorem filled_no_null (cells : List Cell) :
    (cells.map (fillCell (Cell.str ""))).any isNullCell = false := by
  rw [List.any_eq_false]
  intro c hc
  rw [List.mem_map] at hc
  obtain ⟨c0, _, rfl⟩ := hc
  unfold fillCell
  cases c0 <;> simp [isNullCell]

/-- One conditional fill step: the named column becomes its filled image. -/
theorem fillTop_step_col_self (df : DataFrame) (n : String)
    (hwf : wfDF df = true) :
    getColCells (if (getColCells df n).any isNullCell then
      mapCol df n (fillCell (Cell.str "")) else df) n =
      (getColCells df n).map (fillCell (Cell.str "")) := by
  cases hi : colIdx n df.header with
  | none =>
      have hcol : getColCells df n = [] := by
        unfold getColCells
        simp [hi]
      rw [hcol]
      simp only [List.map_nil]
      split
      · unfold getColCells
        rw [mapCol_header]
        simp [hi]
      · exact hcol
  | some i =>
      split
      · exact getColCells_mapCol_same df n _ i hi hwf
      · next hany => rw [map_fill_of_no_null _ (by simpa using hany)]

theorem fillTop_step_col_other (df : DataFrame) (a n : String) (hna : n ≠ a) :
    getColCells (if (getColCells df a).any isNullCell then
      mapCol df a (fillCell (Cell.str "")) else df) n = getColCells df n := by
  split
  · exact getColCells_mapCol_other df a n _ hna
  · rfl

theorem fillTop_step_wf (df : DataFrame) (a : String) (hwf : wfDF df = true) :
    wfDF (if (getColCells df a).any isNullCell then
      mapCol df a (fillCell (Cell.str "")) else df) = true := by
  split
  · exact wfDF_mapCol _ _ _ hwf
  · exact hwf

theorem map_fill_idem (cells : List Cell) :
    (cells.map (fillCell (Cell.str ""))).map (fillCell (Cell.str "")) =
      cells.map (fillCell (Cell.str "")) := by
  rw [List.map_map]
  apply List.map_congr_left
  intro c _
  exact fillCell_empty_idem c

/-- Effect of the headline fill fold on a column it names. -/
theorem fold_fillTop_member (ns : List String) (df : DataFrame) (n : String)
    (hn : n ∈ ns) (hwf : wfDF df = true) :
    getColCells (ns.foldl (fun d c =>
      if (getColCells d c).any isNullCell then
        mapCol d c (fillCell (Cell.str "")) else d) df) n =
      (getColCells df n).map (fillCell (Cell.str "")) := by
  induction ns generalizing df with
  | nil => simp at hn
  | cons a t ih =>
      simp only [List.foldl_cons]
      by_cases hnt : n ∈ t
      · rw [ih _ hnt (fillTop_step_wf df a hwf)]
        by_cases hna : n = a
        · subst hna
          rw [fillTop_step_col_self df n hwf, map_fill_idem]
        · rw [fillTop_step_col_other df a n hna]
      · have hna : n = a := by
          rcases List.mem_cons.mp hn with h | h
          · exact h
          · exact absurd h hnt
        subst hna
        rw [fold_fillTop_other t _ n (fun m hm heq => hnt (heq ▸ hm))]
        exact fillTop_step_col_self df n hwf

/-- Fold-step invariant for `mostFreqMin`. -/
theorem mostFreqMin_aux (l : List Int) :
    ∀ (rest : List Int) (acc : Option Int),
      (∀ v ∈ rest, v ∈ l) →
      (∀ m, acc = some m → m ∈ l) →
      ((rest.foldl (fun acc v =>
        match acc with
        | none => some v
        | some m =>
            if countInt l v > countInt l m ∨
                (countInt l v = countInt l m ∧ v < m) then some v
            else some m) acc) = none → acc = none ∧ rest = []) ∧
      (∀ m', (rest.foldl (fun acc v =>
        match acc with
        | none => some v
        | some m =>
            if countInt l v > countInt l m ∨
                (countInt l v = countInt l m ∧ v < m) then some v
            else some m) acc) = some m' →
        m' ∈ l ∧ (∀ v ∈ rest, countInt l v ≤ countInt l m') ∧
        (∀ m, acc = some m → countInt l m ≤ countInt l m')) := by
  intro rest
  induction rest with
  | nil =>
      intro acc _ hacc
      refine ⟨fun h => ⟨h, rfl⟩, fun m' h => ⟨hacc m' h, by simp, ?_⟩⟩
      intro m hm
      rw [hm] at h
      cases h
      exact Nat.le_refl _
  | cons v0 rest' ih =>
      intro acc hrest hacc
      simp only [List.foldl_cons]
      set acc' := (match acc with
        | none => some v0
        | some m =>
            if countInt l v0 > countInt l m ∨
                (countInt l v0 = countInt l m ∧ v0 < m) then some v0
            else some m) with hacc'
      have hv0 : v0 ∈ l := hrest v0 (by simp)
      have hacc'mem : ∀ m, acc' = some m → m ∈ l := by
        intro m hm
        rw [hacc'] at hm
        cases ha : acc with
        | none => rw [ha] at hm; cases hm; exact hv0
        | some m0 =>
            rw [ha] at hm
            have hm' : (if countInt l v0 > countInt l m0 ∨
                (countInt l v0 = countInt l m0 ∧ v0 < m0) then some v0
                else some m0) = some m := hm
            by_cases hcond : countInt l v0 > countInt l m0 ∨
                (countInt l v0 = countInt l m0 ∧ v0 < m0)
            · rw [if_pos hcond] at hm'; cases hm'; exact hv0
            · rw [if_neg hcond] at hm'; cases hm'; exact hacc _ ha
      have hrest' : ∀ v ∈ rest', v ∈ l := fun v hv => hrest v (by simp [hv])
      obtain ⟨ihnone, ihsome⟩ := ih acc' hrest' hacc'mem
      constructor
      · intro h
        obtain ⟨ha', _⟩ := ihnone h
        rw [hacc'] at ha'
        cases ha : acc with
        | none => rw [ha] at ha'; cases ha'
        | some m0 =>
            rw [ha] at ha'
            have ha2 : (if countInt l v0 > countInt l m0 ∨
                (countInt l v0 = countInt l m0 ∧ v0 < m0) then some v0
                else some m0) = none := ha'
            by_cases hcond : countInt l v0 > countInt l m0 ∨
                (countInt l v0 = countInt l m0 ∧ v0 < m0)
            · rw [if_pos hcond] at ha2; cases ha2
            · rw [if_neg hcond] at ha2; cases ha2
      · intro m' h
        obtain ⟨hmem, hmax', hge⟩ := ihsome m' h
        refine ⟨hmem, ?_, ?_⟩
        · intro v hv
          rcases List.mem_cons.mp hv with rfl | hv'
          · obtain ⟨w, hw, hle⟩ : ∃ w, acc' = some w ∧
                countInt l v ≤ countInt l w := by
              rw [hacc']
              cases ha : acc with
              | none => exact ⟨v, rfl, Nat.le_refl _⟩
              | some m0 =>
                  by_cases hcond : countInt l v > countInt l m0 ∨
                      (countInt l v = countInt l m0 ∧ v < m0)
                  · exact ⟨v, if_pos hcond, Nat.le_refl _⟩
                  · exact ⟨m0, if_neg hcond, by omega⟩
            exact hle.trans (hge w hw)
          · exact hmax' v hv'
        · intro m hm
          obtain ⟨w, hw, hle⟩ : ∃ w, acc' = some w ∧
              countInt l m ≤ countInt l w := by
            rw [hacc', hm]
            by_cases hcond : countInt l v0 > countInt l m ∨
                (countInt l v0 = countInt l m ∧ v0 < m)
            · exact ⟨v0, if_pos hcond, by omega⟩
            · exact ⟨m, if_neg hcond, Nat.le_refl _⟩
          exact hle.trans (hge w hw)

theorem mostFreqMin_some_spec (l : List Int) (m : Int)
    (h : mostFreqMin l = some m) :
    m ∈ l ∧ ∀ v ∈ l, countInt l v ≤ countInt l m := by
  have := (mostFreqMin_aux l l none (fun v hv => hv) (by simp)).2 m h
  exact ⟨this.1, this.2.1⟩

theorem mostFreqMin_of_ne_nil (l : List Int) (h : l ≠ []) :
    ∃ m, mostFreqMin l = some m := by
  cases hm : mostFreqMin l with
  | none => exact absurd ((mostFreqMin_aux l l none (fun v hv => hv)
      (by simp)).1 hm).2 h
  | some m => exact ⟨m, rfl⟩

theorem isNullCell_eq_true (c : Cell) (h : isNullCell c = true) :
    c = Cell.null := by
  cases c <;> simp_all [isNullCell]

theorem nullCountDF_pos_of_col (df : DataFrame) (n : String) (i : Nat)
    (hwf : wfDF df = true) (hi : colIdx n df.header = some i)
    (h : (getColCells df n).any isNullCell = true) : nullCountDF df ≠ 0 := by
  rw [List.any_eq_true] at h
  obtain ⟨c, hc, hnull⟩ := h
  obtain ⟨i', hi', r, hr, hQ⟩ := exCol_elim df n
    (fun c => isNullCell c = true) ⟨c, hc, hnull⟩
  rw [hi] at hi'
  cases hi'
  have hlen : r.cells.length = df.header.length := (wfDF_iff df).mp hwf r hr
  have hilt : i < r.cells.length := by
    rw [hlen]
    exact colIdx_lt_length n df.header i hi
  have hnullmem : Cell.null ∈ r.cells := by
    have : cellAt r i = Cell.null := isNullCell_eq_true _ hQ
    rw [cellAt, List.getD_eq_getElem?_getD, List.getElem?_eq_getElem hilt,
      Option.getD_some] at this
    rw [← this]
    exact List.getElem_mem hilt
  intro h0
  unfold nullCountDF at h0
  rw [List.sum_eq_zero_iff] at h0
  have hz := h0 (r.cells.countP isNullCell) (List.mem_map_of_mem _ hr)
  rw [List.countP_eq_zero] at hz
  exact hz Cell.null hnullmem rfl

/-- **C6** — In `_handle_missing_values`, when the (numeric-dtype) label
column contains nulls, every null in it is replaced by `mode()[0]` — a
value of maximal frequency among the non-null label values — or by `0`
when the column has no non-null value at all; and every null of a
`top*` headline column is replaced by the empty string. -/
theorem C6_handle_missing_label_mode (df : DataFrame)
    (hwf : wfDF df = true) (hl : "label" ∈ df.header)
    (hnum : isNumericCells (getColCells df "label") = true)
    (hnull : (getColCells df "label").any isNullCell = true) :
    getColCells (handle_missing_values df) "label" =
      (getColCells df "label").map
        (fillCell (Cell.int (modeValInt (getColCells df "label")))) ∧
    (nonNullInts (getColCells df "label") ≠ [] →
      modeValInt (getColCells df "label") ∈
          nonNullInts (getColCells df "label") ∧
        ∀ v ∈ nonNullInts (getColCells df "label"),
          countInt (nonNullInts (getColCells df "label")) v ≤
            countInt (nonNullInts (getColCells df "label"))
              (modeValInt (getColCells df "label"))) ∧
    (nonNullInts (getColCells df "label") = [] →
      modeValInt (getColCells df "label") = 0) ∧
    (∀ n ∈ topCols df, getColCells (handle_missing_values df) n =
      (getColCells df n).map (fillCell (Cell.str ""))) := by
  obtain ⟨li, hli⟩ := colIdx_isSome_of_mem "label" df.header hl
  have hnz : ¬(nullCountDF df = 0) :=
    nullCountDF_pos_of_col df "label" li hwf hli hnull
  have hfl : fillLabelCol df = mapCol df "label"
      (fillCell (Cell.int (modeValInt (getColCells df "label")))) := by
    unfold fillLabelCol
    rw [if_pos hl, if_pos (by rw [hnum, hnull]; rfl)]
  have hunfold : handle_missing_values df = (topCols (fillLabelCol df)).foldl
      (fun d c =>
        if (getColCells d c).any isNullCell then
          mapCol d c (fillCell (Cell.str "")) else d)
      (fillLabelCol df) := by
    unfold handle_missing_values
    rw [if_neg hnz]
  refine ⟨?_, ?_, ?_, ?_⟩
  · rw [hunfold, fold_fillTop_other _ _ _
      (fun n hn => (startsWithTop_ne n (topCols_starts _ n hn)).2.1), hfl]
    exact getColCells_mapCol_same df "label" _ li hli hwf
  · intro hne
    obtain ⟨m, hm⟩ := mostFreqMin_of_ne_nil _ hne
    obtain ⟨hmem, hmax⟩ := mostFreqMin_some_spec _ m hm
    unfold modeValInt
    rw [hm]
    exact ⟨hmem, hmax⟩
  · intro hempty
    unfold modeValInt
    rw [hempty]
    rfl
  · intro n hn
    have hwf1 : wfDF (fillLabelCol df) = true := wfDF_fillLabelCol df hwf
    have hn1 : n ∈ topCols (fillLabelCol df) := by
      unfold topCols at hn ⊢
      rw [fillLabelCol_header]
      exact hn
    rw [hunfold, fold_fillTop_member _ _ n hn1 hwf1,
      fillLabelCol_other df n (startsWithTop_ne n (topCols_starts _ n hn)).2.1]

/-- The table used as the C6 witness: a null label among labels 1, 1, 0
(mode 1) and a null headline. -/
def df6w : DataFrame :=
  { header := ["label", "top1"],
    rows := [⟨0, [.int 1, .null]⟩, ⟨1, [.null, .str "x"]⟩,
             ⟨2, [.int 1, .str "y"]⟩, ⟨3, [.int 0, .str "z"]⟩] }

/-- Witness for C6 at a concrete table. -/
theorem C6_handle_missing_label_mode_witness :
    getColCells (handle_missing_values df6w) "label" =
      [Cell.int 1, Cell.int 1, Cell.int 1, Cell.int 0] ∧
    modeValInt (getColCells df6w "label") ∈ nonNullInts (getColCells df6w "label") ∧
    getColCells (handle_missing_values df6w) "top1" =
      [Cell.str "", Cell.str "x", Cell.str "y", Cell.str "z"] := by
  have h := C6_handle_missing_label_mode df6w (by decide) (by decide)
    (by decide) (by decide)
  refine ⟨?_, ?_, ?_⟩
  · rw [h.1]
    decide
  · exact (h.2.1 (by decide)).1
  · have := h.2.2.2 "top1" (by decide)
    rw [this]
    decide

/-! ### Extended facts about `create_features` (used by C3 and C8) -/

theorem mem_setCol_header_sub (df : DataFrame) (n : String) (vs : List Cell)
    (m : String) (hm : m ∈ (setColCells df n vs).header) :
    m ∈ df.header ∨ m = n := by
  rcases setColCells_header_cases df n vs with h | h <;> rw [h] at hm
  · exact Or.inl hm
  · rcases List.mem_append.mp hm with h2 | h2
    · exact Or.inl h2
    · exact Or.inr (by simpa using h2)

theorem mem_addSentiment_sub (df : DataFrame) (m : String)
    (hm : m ∈ (addSentiment df).header) :
    m ∈ df.header ∨ m = "sentiment" := by
  unfold addSentiment at hm
  split at hm
  · exact mem_setCol_header_sub _ _ _ _ hm
  · exact Or.inl hm

theorem nodup_setColCells (df : DataFrame) (n : String) (vs : List Cell)
    (hnd : df.header.Nodup) : (setColCells df n vs).header.Nodup := by
  cases hi : colIdx n df.header with
  | some i => rw [setColCells_header_overwrite df n vs i hi]; exact hnd
  | none =>
      rw [setColCells_header_fresh df n vs hi]
      have hn : n ∉ df.header := (colIdx_eq_none_iff n df.header).mp hi
      simp [List.nodup_append, hnd, hn]

theorem nodup_addSentiment (df : DataFrame) (hnd : df.header.Nodup) :
    (addSentiment df).header.Nodup := by
  unfold addSentiment
  split
  · exact nodup_setColCells _ _ _ hnd
  · exact hnd

/-- Full column-level description of a completed `_create_features`. -/
theorem create_features_ok_cols (df out : DataFrame)
    (h : create_features df = .ok out) (hwf : wfDF df = true) :
    (∀ n ∈ out.header, n ∈ df.header ∨ n = "year" ∨ n = "month" ∨
      n = "day" ∨ n = "day_of_week" ∨ n = "quarter" ∨ n = "sentiment") ∧
    (df.header.Nodup → out.header.Nodup) ∧
    ("date" ∈ df.header →
      getColCells out "year" = (getColCells df "date").map yearCell ∧
      getColCells out "month" = (getColCells df "date").map monthCell ∧
      getColCells out "day" = (getColCells df "date").map dayCell ∧
      getColCells out "day_of_week" = (getColCells df "date").map dowCell ∧
      getColCells out "quarter" = (getColCells df "date").map quarterCell) ∧
    (("year" ∈ out.header ∨ "month" ∈ out.header ∨ "day" ∈ out.header ∨
        "day_of_week" ∈ out.header ∨ "quarter" ∈ out.header) →
      "date" ∈ df.header ∨ ("year" ∈ df.header ∨ "month" ∈ df.header ∨
        "day" ∈ df.header ∨ "day_of_week" ∈ df.header ∨
        "quarter" ∈ df.header)) ∧
    ("sentiment" ∈ out.header → "sentiment" ∈ df.header ∨
      "label" ∈ df.header) := by
  unfold create_features at h
  by_cases hd : "date" ∈ df.header
  · rw [if_pos hd] at h
    by_cases hdt : isDatetimeLike (getColCells df "date")
    · rw [if_pos hdt] at h
      simp only [Except.ok.injEq] at h
      obtain ⟨di, hdi⟩ := colIdx_isSome_of_mem "date" df.header hd
      have hlen0 : ((getColCells df "date").map yearCell).length =
          df.rows.length := by
        rw [List.length_map]
        exact getColCells_length df "date" di hdi
      obtain ⟨hwf1, hlen1, hoth1⟩ := setColFeature_facts df "year" _ hlen0 hwf
      set d1 := setColCells df "year" ((getColCells df "date").map yearCell)
        with hd1
      have hdate1 : getColCells d1 "date" = getColCells df "date" :=
        (hoth1 "date" (by decide)).2
      have hlen1' : ((getColCells d1 "date").map monthCell).length =
          d1.rows.length := by
        rw [List.length_map, hdate1, hlen1]
        exact getColCells_length df "date" di hdi
      obtain ⟨hwf2, hlen2, hoth2⟩ := setColFeature_facts d1 "month" _ hlen1' hwf1
      set d2 := setColCells d1 "month" ((getColCells d1 "date").map monthCell)
        with hd2
      have hdate2 : getColCells d2 "date" = getColCells df "date" := by
        rw [(hoth2 "date" (by decide)).2, hdate1]
      have hlen2' : ((getColCells d2 "date").map dayCell).length =
          d2.rows.length := by
        rw [List.length_map, hdate2, hlen2, hlen1]
        exact getColCells_length df "date" di hdi
      obtain ⟨hwf3, hlen3, hoth3⟩ := setColFeature_facts d2 "day" _ hlen2' hwf2
      set d3 := setColCells d2 "day" ((getColCells d2 "date").map dayCell)
        with hd3
      have hdate3 : getColCells d3 "date" = getColCells df "date" := by
        rw [(hoth3 "date" (by decide)).2, hdate2]
      have hlen3' : ((getColCells d3 "date").map dowCell).length =
          d3.rows.length := by
        rw [List.length_map, hdate3, hlen3, hlen2, hlen1]
        exact getColCells_length df "date" di hdi
      obtain ⟨hwf4, hlen4, hoth4⟩ :=
        setColFeature_facts d3 "day_of_week" _ hlen3' hwf3
      set d4 := setColCells d3 "day_of_week"
        ((getColCells d3 "date").map dowCell) with hd4
      have hdate4 : getColCells d4 "date" = getColCells df "date" := by
        rw [(hoth4 "date" (by decide)).2, hdate3]
      have hlen4' : ((getColCells d4 "date").map quarterCell).length =
          d4.rows.length := by
        rw [List.length_map, hdate4, hlen4, hlen3, hlen2, hlen1]
        exact getColCells_length df "date" di hdi
      obtain ⟨hwf5, hlen5, hoth5⟩ :=
        setColFeature_facts d4 "quarter" _ hlen4' hwf4
      set d5 := setColCells d4 "quarter"
        ((getColCells d4 "date").map quarterCell) with hd5
      subst h
      -- the year column, read back through the later assignments
      have hyear1 : getColCells d1 "year" =
          (getColCells df "date").map yearCell :=
        getColCells_setColCells_same df "year" _ hwf hlen0
      have hyear5 : getColCells d5 "year" =
          (getColCells df "date").map yearCell := by
        rw [(hoth5 "year" (by decide)).2, (hoth4 "year" (by decide)).2,
          (hoth3 "year" (by decide)).2, (hoth2 "year" (by decide)).2, hyear1]
      have hmonth2 : getColCells d2 "month" =
          (getColCells df "date").map monthCell := by
        have hm := getColCells_setColCells_same d1 "month" _ hwf1 hlen1'
        rw [← hd2] at hm
        rw [hdate1] at hm
        exact hm
      have hmonth5 : getColCells d5 "month" =
          (getColCells df "date").map monthCell := by
        rw [(hoth5 "month" (by decide)).2, (hoth4 "month" (by decide)).2,
          (hoth3 "month" (by decide)).2, hmonth2]
      have hday3 : getColCells d3 "day" =
          (getColCells df "date").map dayCell := by
        have hm := getColCells_setColCells_same d2 "day" _ hwf2 hlen2'
        rw [← hd3] at hm
        rw [hdate2] at hm
        exact hm
      have hday5 : getColCells d5 "day" =
          (getColCells df "date").map dayCell := by
        rw [(hoth5 "day" (by decide)).2, (hoth4 "day" (by decide)).2, hday3]
      have hdow4 : getColCells d4 "day_of_week" =
          (getColCells df "date").map dowCell := by
        have hm := getColCells_setColCells_same d3 "day_of_week" _ hwf3 hlen3'
        rw [← hd4] at hm
        rw [hdate3] at hm
        exact hm
      have hdow5 : getColCells d5 "day_of_week" =
          (getColCells df "date").map dowCell := by
        rw [(hoth5 "day_of_week" (by decide)).2, hdow4]
      have hquarter5 : getColCells d5 "quarter" =
          (getColCells df "date").map quarterCell := by
        have hm := getColCells_setColCells_same d4 "quarter" _ hwf4 hlen4'
        rw [← hd5] at hm
        rw [hdate4] at hm
        exact hm
      have hback : ∀ m, m ≠ "year" → m ≠ "month" → m ≠ "day" →
          m ≠ "day_of_week" → m ≠ "quarter" → m ∈ d5.header →
          m ∈ df.header := by
        intro m h1 h2 h3 h4 h5 hm
        exact (hoth1 m h1).1.mp ((hoth2 m h2).1.mp ((hoth3 m h3).1.mp
          ((hoth4 m h4).1.mp ((hoth5 m h5).1.mp hm))))
      refine ⟨?_, ?_, ?_, fun _ => Or.inl hd, ?_⟩
      · intro n hn
        rcases mem_addSentiment_sub d5 n hn with hn5 | hs
        · rcases mem_setCol_header_sub _ _ _ _ hn5 with hn4 | hq
          · rcases mem_setCol_header_sub _ _ _ _ hn4 with hn3 | hq
            · rcases mem_setCol_header_sub _ _ _ _ hn3 with hn2 | hq
              · rcases mem_setCol_header_sub _ _ _ _ hn2 with hn1 | hq
                · rcases mem_setCol_header_sub _ _ _ _ hn1 with hn0 | hq
                  · exact Or.inl hn0
                  · exact Or.inr (Or.inl hq)
                · exact Or.inr (Or.inr (Or.inl hq))
              · exact Or.inr (Or.inr (Or.inr (Or.inl hq)))
            · exact Or.inr (Or.inr (Or.inr (Or.inr (Or.inl hq))))
          · exact Or.inr (Or.inr (Or.inr (Or.inr (Or.inr (Or.inl hq)))))
        · exact Or.inr (Or.inr (Or.inr (Or.inr (Or.inr (Or.inr hs)))))
      · intro hnd
        exact nodup_addSentiment _ (nodup_setColCells _ _ _
          (nodup_setColCells _ _ _ (nodup_setColCells _ _ _
            (nodup_setColCells _ _ _ (nodup_setColCells _ _ _ hnd)))))
      · intro _
        refine ⟨?_, ?_, ?_, ?_, ?_⟩ <;>
          rw [addSentiment_other d5 _ (by decide) hwf5]
        · exact hyear5
        · exact hmonth5
        · exact hday5
        · exact hdow5
        · exact hquarter5
      · intro hmem
        by_cases hl5 : "label" ∈ d5.header
        · exact Or.inr (hback "label" (by decide) (by decide) (by decide)
            (by decide) (by decide) hl5)
        · refine Or.inl ?_
          have hs5 : "sentiment" ∈ d5.header := by
            unfold addSentiment at hmem
            rw [if_neg hl5] at hmem
            exact hmem
          exact hback "sentiment" (by decide) (by decide) (by decide)
            (by decide) (by decide) hs5
    · rw [if_neg hdt] at h
      cases h
  · rw [if_neg hd] at h
    simp only [Except.ok.injEq] at h
    subst h
    refine ⟨?_, fun hnd => nodup_addSentiment _ hnd, fun hc => absurd hc hd,
      ?_, ?_⟩
    · intro n hn
      rcases mem_addSentiment_sub df n hn with h1 | h2
      · exact Or.inl h1
      · exact Or.inr (Or.inr (Or.inr (Or.inr (Or.inr (Or.inr h2)))))
    · intro hmem
      right
      rcases hmem with hm | hm | hm | hm | hm <;>
        rcases mem_addSentiment_sub df _ hm with h1 | h2 <;>
          first
            | (exact Or.inl h1)
            | (exact Or.inr (Or.inl h1))
            | (exact Or.inr (Or.inr (Or.inl h1)))
            | (exact Or.inr (Or.inr (Or.inr (Or.inl h1))))
            | (exact Or.inr (Or.inr (Or.inr (Or.inr h1))))
            | (exact absurd h2 (by decide))
    · intro hmem
      rcases mem_addSentiment_sub df _ hmem with h1 | h2
      · exact Or.inl h1
      · -- sentiment was appended, which only happens when label exists
        unfold addSentiment at hmem
        revert hmem
        split
        · next hl => exact fun _ => Or.inr hl
        · intro hmem
          exact Or.inl hmem

/-! ### Claim C3: no nulls in output -/


/-! ### Claim C3 supporting lemmas -/

theorem astypeIntCell_ok_int (c c' : Cell) (h : astypeIntCell c = .ok c') :
    ∃ k, c' = Cell.int k := by
  cases c with
  | null => simp [astypeIntCell] at h
  | int n =>
      simp only [astypeIntCell, Except.ok.injEq] at h
      exact ⟨n, h.symm⟩
  | date y m d => simp [astypeIntCell] at h
  | str s =>
      simp only [astypeIntCell] at h
      cases hp : charsToInt s.data with
      | none => rw [hp] at h; cases h
      | some n =>
          rw [hp] at h
          cases h
          exact ⟨n, rfl⟩

theorem topConvertCell_isStr (c : Cell) :
    ∃ s, topConvertCell c = Cell.str s := by
  unfold topConvertCell fillnaEmptyCell astypeStrCell replaceNanCell
  cases c with
  | null => exact ⟨"", by simp⟩
  | int n =>
      by_cases hn : toString n = "nan"
      · exact ⟨"", by simp [hn]⟩
      · exact ⟨toString n, by simp [hn]⟩
  | str s =>
      by_cases hs : s = "nan"
      · exact ⟨"", by simp [hs]⟩
      · exact ⟨s, by simp [hs]⟩
  | date y m d =>
      by_cases hn : dateToString y m d = "nan"
      · exact ⟨"", by simp [hn]⟩
      · exact ⟨dateToString y m d, by simp [hn]⟩

/-- `mapCol` preserves a per-cell predicate that `f` preserves, on every
column. -/
theorem mapCol_pres (df : DataFrame) (n : String) (f : Cell → Cell)
    (P : Cell → Prop) (hf : ∀ c, P c → P (f c)) (m : String)
    (h : ∀ c ∈ getColCells df m, P c) :
    ∀ c ∈ getColCells (mapCol df n f) m, P c := by
  by_cases hma : m = n
  · subst hma
    cases hi : colIdx m df.header with
    | none => simpa [mapCol, hi] using h
    | some i =>
        intro c hc
        simp only [getColCells, mapCol_header, mapCol, hi, List.map_map,
          List.mem_map] at hc
        obtain ⟨r, hr, rfl⟩ := hc
        simp only [Function.comp, cellAt]
        by_cases hlen : i < r.cells.length
        · rw [List.getD_eq_getElem?_getD, List.getElem?_set_self hlen]
          simp only [Option.getD_some]
          apply hf
          apply h
          simp only [getColCells, hi, List.mem_map]
          exact ⟨r, hr, rfl⟩
        · rw [List.set_eq_of_length_le (by omega)]
          apply h
          simp only [getColCells, hi, List.mem_map]
          exact ⟨r, hr, rfl⟩
  · rw [getColCells_mapCol_other df n m f hma]
    exact h

/-- The conditional headline fill fold preserves a per-cell predicate
preserved by the empty-string fill. -/
theorem fold_fillTop_pres (ns : List String) (df : DataFrame)
    (P : Cell → Prop) (hf : ∀ c, P c → P (fillCell (Cell.str "") c))
    (m : String) (h : ∀ c ∈ getColCells df m, P c) :
    ∀ c ∈ getColCells (ns.foldl (fun d c =>
      if (getColCells d c).any isNullCell then
        mapCol d c (fillCell (Cell.str "")) else d) df) m, P c := by
  induction ns generalizing df with
  | nil => exact h
  | cons a t ih =>
      simp only [List.foldl_cons]
      apply ih
      split
      · exact mapCol_pres df a _ P hf m h
      · exact h

/-- Steps 4 and 5 (dedup, date cleaning) preserve any per-cell column
property. -/
theorem allCol_steps45 (df : DataFrame) (n : String) (P : Cell → Prop)
    (h : ∀ c ∈ getColCells df n, P c) :
    ∀ c ∈ getColCells (clean_dates (remove_duplicates df)) n, P c := by
  have h4 : ∀ c ∈ getColCells (remove_duplicates df) n, P c :=
    allCol_of_rows_sub df _ n P
      (fun r hr => ⟨r, dedupRowsAux_sub [] _ r hr, rfl⟩) rfl h
  exact allCol_of_rows_sub _ _ n P
    (fun r hr => clean_dates_rows_mem _ r hr) (clean_dates_header _) h4

/-- Whatever the input, the date column of `_clean_dates`'s output has no
null cells. -/
theorem clean_dates_date_no_null (df : DataFrame) :
    ∀ c ∈ getColCells (clean_dates df) "date", isNullCell c = false := by
  intro c hc
  unfold getColCells at hc
  rw [clean_dates_header] at hc
  revert hc
  cases hi : colIdx "date" df.header with
  | none => intro hc; simp at hc
  | some i =>
      intro hc
      simp only [List.mem_map] at hc
      obtain ⟨r, hr, rfl⟩ := hc
      have hrows : (clean_dates df).rows = resetIndexAux 0
          (List.insertionSort
            (fun a b => cellLe (cellAt a i) (cellAt b i) = true)
            (df.rows.filter (fun r => !isNullCell (cellAt r i)))) := by
        unfold clean_dates
        simp only [hi]
      rw [hrows] at hr
      obtain ⟨r0, hr0, hcells⟩ := mem_resetIndexAux _ _ r hr
      have hr1 : r0 ∈ df.rows.filter (fun r => !isNullCell (cellAt r i)) :=
        (List.perm_insertionSort _ _).mem_iff.mp hr0
      have hp := List.of_mem_filter hr1
      rw [cellAt, hcells, ← cellAt]
      revert hp
      cases isNullCell (cellAt r0 i) <;> simp

theorem colIdx_of_nodup (h : List String) (hnd : h.Nodup) (j : Nat)
    (hj : j < h.length) : colIdx (h.getD j "") h = some j := by
  induction h generalizing j with
  | nil => simp at hj
  | cons a t ih =>
      cases j with
      | zero => simp [colIdx, List.getD]
      | succ j' =>
          have hj' : j' < t.length := by simpa using hj
          have hne : a ≠ t.getD j' "" := by
            intro hc
            have hmem : a ∈ t := by
              rw [hc, List.getD_eq_getElem?_getD,
                List.getElem?_eq_getElem hj', Option.getD_some]
              exact List.getElem_mem hj'
            exact (List.nodup_cons.mp hnd).1 hmem
          simp only [List.getD_cons_succ, colIdx]
          rw [if_neg hne, ih (List.nodup_cons.mp hnd).2 j' hj']
          rfl

theorem nullCountDF_eq_zero (df : DataFrame)
    (h : ∀ r ∈ df.rows, ∀ c ∈ r.cells, isNullCell c = false) :
    nullCountDF df = 0 := by
  unfold nullCountDF
  rw [List.sum_eq_zero_iff]
  intro x hx
  rw [List.mem_map] at hx
  obtain ⟨r, hr, rfl⟩ := hx
  rw [List.countP_eq_zero]
  intro c hc
  rw [h r hr c hc]
  exact fun hcon => Bool.false_ne_true hcon

theorem cellAt_mem_getColCells (df : DataFrame) (n : String) (j : Nat)
    (hj : colIdx n df.header = some j) (r : Row) (hr : r ∈ df.rows) :
    cellAt r j ∈ getColCells df n := by
  unfold getColCells
  simp only [hj]
  exact List.mem_map_of_mem _ hr

theorem isNumericCells_of_01 (cells : List Cell)
    (h : ∀ c ∈ cells, c = Cell.null ∨ c = Cell.int 0 ∨ c = Cell.int 1) :
    isNumericCells cells = true := by
  unfold isNumericCells
  rw [List.all_eq_true]
  intro c hc
  rcases h c hc with rfl | rfl | rfl <;> rfl


theorem fillCell_of_ne_null (v c : Cell) (h : c ≠ Cell.null) :
    fillCell v c = c := by
  unfold fillCell
  cases c with
  | null => exact absurd rfl h
  | int n => rfl
  | str s => rfl
  | date y m d => rfl

theorem mem_nonNullInts (cells : List Cell) (v : Int)
    (h : v ∈ nonNullInts cells) : Cell.int v ∈ cells := by
  unfold nonNullInts at h
  rw [List.mem_filterMap] at h
  obtain ⟨c, hc, hfc⟩ := h
  cases c <;> simp_all

theorem create_features_ok_datetime (d out : DataFrame)
    (hd : "date" ∈ d.header) (h : create_features d = .ok out) :
    isDatetimeLike (getColCells d "date") = true := by
  unfold create_features at h
  rw [if_pos hd] at h
  by_cases hdt : isDatetimeLike (getColCells d "date")
  · exact hdt
  · rw [if_neg hdt] at h
    cases h

theorem convertDateCol_other (df : DataFrame) (m : String)
    (hm : m ≠ "date") (hwf : wfDF df = true) :
    getColCells (convertDateCol df) m = getColCells df m := by
  unfold convertDateCol
  split
  · next hd =>
      split
      · next cells heq =>
          obtain ⟨di, hdi⟩ := colIdx_isSome_of_mem "date" df.header hd
          apply getColCells_setColCells_other df "date" m cells hm hwf
          rw [traverseCells_ok_length _ _ _ heq]
          exact getColCells_length df "date" di hdi
      · rfl
  · rfl

/-- **C3 (amended)** — For every rectangular input table whose normalized
columns are exactly a date column, a label column and `top*` headline
columns (pairwise distinct names), and whose label cells are null, 0 or
1, a completed `transform_all` output has zero null values in every
column, derived columns included.  (Without the label restriction the
claim fails: a label outside {0,1} maps to a null sentiment, see the
counterexample.) -/
theorem C3_no_nulls (df out : DataFrame) (hwf : wfDF df = true)
    (h : transform_all df = .ok out)
    (hnd : (normalize_column_names df).header.Nodup)
    (hschema : ∀ n ∈ (normalize_column_names df).header,
      n = "date" ∨ n = "label" ∨ startsWithTop n = true)
    (hlab : ∀ c ∈ getColCells (normalize_column_names df) "label",
      c = Cell.null ∨ c = Cell.int 0 ∨ c = Cell.int 1) :
    nullCountDF out = 0 := by
  unfold transform_all at h
  set s1 := normalize_column_names df with hs1d
  have hwf1 : wfDF s1 = true := wfDF_normalize_column_names df hwf
  set s2 := convert_data_types s1 with hs2d
  have hwf2 : wfDF s2 = true := wfDF_convert_data_types _ hwf1
  set s3 := handle_missing_values s2 with hs3d
  have hwf3 : wfDF s3 = true := wfDF_handle_missing_values _ hwf2
  set s45 := clean_dates (remove_duplicates s3) with hs45d
  have hwf45 : wfDF s45 = true :=
    wfDF_clean_dates _ (wfDF_remove_duplicates _ hwf3)
  set s6 := normalize_values s45 with hs6d
  have hwf6 : wfDF s6 = true := wfDF_normalize_values _ hwf45
  have hh2 : s2.header = s1.header := convert_data_types_header s1
  have hh3 : s3.header = s1.header := by
    rw [hs3d, handle_missing_values_header, hh2]
  have hh45 : s45.header = s1.header := by
    rw [hs45d, clean_dates_header, remove_duplicates_header, hh3]
  have hh6 : s6.header = s1.header := by
    rw [hs6d, normalize_values_header, hh45]
  obtain ⟨hwfo, hoth, hsent⟩ := create_features_ok_facts s6 out h hwf6
  obtain ⟨hhsub, hndo, hfeat, hfeatmem, hsentmem⟩ :=
    create_features_ok_cols s6 out h hwf6
  -- top columns hold only strings all the way to the output
  have F_top : ∀ n, startsWithTop n = true →
      ∀ c ∈ getColCells out n, ∃ s, c = Cell.str s := by
    intro n hst
    obtain ⟨hne1, hne2, hne3, hne4, hne5, hne6, hne7, hne8⟩ :=
      startsWithTop_ne n hst
    by_cases hmem : n ∈ s1.header
    · have hA2 : ∀ c ∈ getColCells s2 n, ∃ s, c = Cell.str s := by
        rw [hs2d]
        unfold convert_data_types
        refine fold_mapCol_out _ topConvertCell
          (fun c => ∃ s, c = Cell.str s) (fun c => topConvertCell_isStr c)
          _ n ?_ ?_
        · unfold topCols
          rw [List.mem_filter, convertLabelCol_header, convertDateCol_header]
          exact ⟨hmem, hst⟩
        · exact wfDF_convertLabelCol _ (wfDF_convertDateCol _ hwf1)
      have hA3 : ∀ c ∈ getColCells s3 n, ∃ s, c = Cell.str s := by
        rw [hs3d]
        unfold handle_missing_values
        split
        · exact hA2
        · apply fold_fillTop_pres
          · intro c hc
            obtain ⟨s, rfl⟩ := hc
            exact ⟨s, by rfl⟩
          · rw [fillLabelCol_other _ n hne2]
            exact hA2
      have hA45 : ∀ c ∈ getColCells s45 n, ∃ s, c = Cell.str s := by
        rw [hs45d]
        exact allCol_steps45 _ _ _ hA3
      have hA6 : ∀ c ∈ getColCells s6 n, ∃ s, c = Cell.str s := by
        rw [hs6d]
        unfold normalize_values
        apply fold_mapCol_pres _ stripCell _ ?_ _ _ hA45
        intro c hc
        obtain ⟨s, rfl⟩ := hc
        exact ⟨String.mk (trimChars s.data), rfl⟩
      rw [(hoth n hne3 hne4 hne5 hne6 hne7 hne8).2]
      exact hA6
    · -- the column does not exist anywhere: vacuous
      intro c hc
      exfalso
      have hno : n ∉ out.header := by
        intro hmo
        rcases hhsub n hmo with h1 | h1 | h1 | h1 | h1 | h1 | h1
        · exact hmem (by rw [← hh6]; exact h1)
        all_goals (subst h1; simp [startsWithTop] at hst)
      unfold getColCells at hc
      rw [(colIdx_eq_none_iff n out.header).mpr hno] at hc
      cases hc
  -- the label column holds only 0/1 in the output
  have F_label : "label" ∈ s1.header →
      ∀ c ∈ getColCells out "label",
        c = Cell.int 0 ∨ c = Cell.int 1 := by
    intro hlmem
    obtain ⟨li1, hli1⟩ := colIdx_isSome_of_mem "label" s1.header hlmem
    have hA2w : ∀ c ∈ getColCells s2 "label",
        c = Cell.null ∨ c = Cell.int 0 ∨ c = Cell.int 1 := by
      rw [hs2d]
      unfold convert_data_types
      rw [fold_mapCol_other _ _ _ _
        (fun m hm => (startsWithTop_ne m (topCols_starts _ m hm)).2.1)]
      have hdother : getColCells (convertDateCol s1) "label" =
          getColCells s1 "label" :=
        convertDateCol_other s1 "label" (by decide) hwf1
      unfold convertLabelCol
      split
      · next hl2 =>
          split
          · next cells heq =>
              have hlen : cells.length = (convertDateCol s1).rows.length := by
                rw [traverseCells_ok_length _ _ _ heq, hdother]
                rw [hs1d] at hli1
                rw [getColCells_length s1 "label" li1 hli1,
                  convertDateCol_rows_length]
              rw [getColCells_setColCells_same _ _ _
                (wfDF_convertDateCol _ hwf1) hlen]
              intro c hc
              obtain ⟨c0, hc0, hok⟩ := traverseCells_ok_mem _ _ _ heq c hc
              rw [hdother] at hc0
              rcases hlab c0 hc0 with rfl | rfl | rfl
              · simp [astypeIntCell] at hok
              · simp only [astypeIntCell, Except.ok.injEq] at hok
                exact Or.inr (Or.inl hok.symm)
              · simp only [astypeIntCell, Except.ok.injEq] at hok
                exact Or.inr (Or.inr hok.symm)
          · rw [hdother]
            exact hlab
      · rw [hdother]
        exact hlab
    have hli2 : colIdx "label" s2.header = some li1 := by
      rw [hh2]
      exact hli1
    have hA3 : ∀ c ∈ getColCells s3 "label",
        c = Cell.int 0 ∨ c = Cell.int 1 := by
      rw [hs3d]
      unfold handle_missing_values
      split
      · next hzero =>
          intro c hc
          rcases hA2w c hc with rfl | h01 | h01
          · exfalso
            apply nullCountDF_pos_of_col s2 "label" li1 hwf2 hli2 _ hzero
            rw [List.any_eq_true]
            exact ⟨Cell.null, hc, rfl⟩
          · exact Or.inl h01
          · exact Or.inr h01
      · rw [fold_fillTop_other _ _ _
          (fun m hm => (startsWithTop_ne m (topCols_starts _ m hm)).2.1)]
        unfold fillLabelCol
        rw [if_pos (show "label" ∈ s2.header by rw [hh2]; exact hlmem)]
        split
        · next hguard =>
            rw [getColCells_mapCol_same s2 "label" _ li1 hli2 hwf2]
            intro c hc
            rw [List.mem_map] at hc
            obtain ⟨c0, hc0, rfl⟩ := hc
            rcases hA2w c0 hc0 with rfl | h01 | h01
            · -- a null is filled with the mode, which is 0 or 1
              have hval : modeValInt (getColCells s2 "label") = 0 ∨
                  modeValInt (getColCells s2 "label") = 1 := by
                by_cases hne : nonNullInts (getColCells s2 "label") = []
                · unfold modeValInt
                  rw [hne]
                  exact Or.inl rfl
                · obtain ⟨m, hm⟩ := mostFreqMin_of_ne_nil _ hne
                  obtain ⟨hmm, _⟩ := mostFreqMin_some_spec _ m hm
                  have hcell := mem_nonNullInts _ m hmm
                  rcases hA2w _ hcell with hx | hx | hx
                  · cases hx
                  · unfold modeValInt
                    rw [hm]
                    exact Or.inl (by
                      have : m = 0 := by cases hx; rfl
                      simp [this])
                  · unfold modeValInt
                    rw [hm]
                    exact Or.inr (by
                      have : m = 1 := by cases hx; rfl
                      simp [this])
              have hfn : fillCell
                  (Cell.int (modeValInt (getColCells s2 "label")))
                  Cell.null =
                  Cell.int (modeValInt (getColCells s2 "label")) := rfl
              rw [hfn]
              rcases hval with hv | hv <;> rw [hv]
              · exact Or.inl rfl
              · exact Or.inr rfl
            · rw [fillCell_of_ne_null _ _ (by rw [h01]; exact fun hc => by cases hc)]
              exact Or.inl h01
            · rw [fillCell_of_ne_null _ _ (by rw [h01]; exact fun hc => by cases hc)]
              exact Or.inr h01
        · next hguard =>
            intro c hc
            rcases hA2w c hc with rfl | h01 | h01
            · exfalso
              apply hguard
              rw [isNumericCells_of_01 _ hA2w]
              simp only [Bool.true_and]
              rw [List.any_eq_true]
              exact ⟨Cell.null, hc, rfl⟩
            · exact Or.inl h01
            · exact Or.inr h01
    have hA45 : ∀ c ∈ getColCells s45 "label",
        c = Cell.int 0 ∨ c = Cell.int 1 := by
      rw [hs45d]
      exact allCol_steps45 _ _ _ hA3
    have hA6 : ∀ c ∈ getColCells s6 "label",
        c = Cell.int 0 ∨ c = Cell.int 1 := by
      rw [hs6d]
      unfold normalize_values
      rw [fold_mapCol_other _ _ _ _
        (fun m hm => (startsWithTop_ne m (topCols_starts _ m hm)).2.1)]
      exact hA45
    rw [(hoth "label" (by decide) (by decide) (by decide) (by decide)
      (by decide) (by decide)).2]
    exact hA6
  -- the date column holds only dates in the output
  have F_date6 : "date" ∈ s1.header →
      ∀ c ∈ getColCells s6 "date", ∃ y m d, c = Cell.date y m d := by
    intro hdmem
    have hnn45 : ∀ c ∈ getColCells s45 "date", isNullCell c = false := by
      rw [hs45d]
      exact clean_dates_date_no_null _
    have hnn6 : ∀ c ∈ getColCells s6 "date", isNullCell c = false := by
      rw [hs6d]
      unfold normalize_values
      rw [fold_mapCol_other _ _ _ _
        (fun m hm => (startsWithTop_ne m (topCols_starts _ m hm)).1)]
      exact hnn45
    have hdmem6 : "date" ∈ s6.header := by rw [hh6]; exact hdmem
    have hdt := create_features_ok_datetime s6 out hdmem6 h
    rw [isDatetimeLike_iff] at hdt
    intro c hc
    have h1 := hdt c hc
    have h2 := hnn6 c hc
    cases c with
    | null => cases h2
    | int n => cases h1
    | str s => cases h1
    | date y m d => exact ⟨y, m, d, rfl⟩
  have F_date : "date" ∈ s1.header →
      ∀ c ∈ getColCells out "date", ∃ y m d, c = Cell.date y m d := by
    intro hdmem
    rw [(hoth "date" (by decide) (by decide) (by decide) (by decide)
      (by decide) (by decide)).2]
    exact F_date6 hdmem
  -- assemble: every cell of every row is non-null
  apply nullCountDF_eq_zero
  intro r hr c hc
  obtain ⟨j, hjlt, rfl⟩ := List.mem_iff_getElem.mp hc
  have hjh : j < out.header.length := by
    rw [← (wfDF_iff out).mp hwfo r hr]
    exact hjlt
  have hcellAt : cellAt r j = r.cells[j] := by
    rw [cellAt, List.getD_eq_getElem?_getD, List.getElem?_eq_getElem hjlt,
      Option.getD_some]
  obtain ⟨name, hname⟩ : ∃ nm, out.header.getD j "" = nm := ⟨_, rfl⟩
  have hndout : out.header.Nodup := hndo (by rw [hh6]; exact hnd)
  have hcj : colIdx name out.header = some j := by
    rw [← hname]
    exact colIdx_of_nodup out.header hndout j hjh
  have hmemname : name ∈ out.header := by
    rw [← hname, List.getD_eq_getElem?_getD, List.getElem?_eq_getElem hjh,
      Option.getD_some]
    exact List.getElem_mem hjh
  have hcmem : r.cells[j] ∈ getColCells out name := by
    rw [← hcellAt]
    exact cellAt_mem_getColCells out name j hcj r hr
  have hgoal : ∀ cell, (∃ s, cell = Cell.str s) ∨
      (∃ k, cell = Cell.int k) ∨ (∃ y m d, cell = Cell.date y m d) →
      isNullCell cell = false := by
    rintro cell (⟨s, rfl⟩ | ⟨k, rfl⟩ | ⟨y, m, d, rfl⟩) <;> rfl
  apply hgoal
  rcases hhsub name hmemname with hmem1 | hf | hf | hf | hf | hf | hf
  · -- an original column: date, label or a headline column
    rcases hschema name (show _ ∈ s1.header by rw [← hh6]; exact hmem1) with rfl | rfl | hst
    · exact Or.inr (Or.inr (F_date (show _ ∈ s1.header by rw [← hh6]; exact hmem1) _ hcmem))
    · rcases F_label (show _ ∈ s1.header by rw [← hh6]; exact hmem1) _ hcmem with h01 | h01 <;>
        exact Or.inr (Or.inl ⟨_, h01⟩)
    · exact Or.inl (F_top name hst _ hcmem)
  all_goals subst hf
  -- derived feature columns
  case _ =>
    have hdmem : "date" ∈ s1.header := by
      rcases hfeatmem (Or.inl hmemname) with h1 | h1
      · rw [← hh6]; exact h1
      · exfalso
        rcases h1 with h1 | h1 | h1 | h1 | h1 <;>
          rcases hschema _ (show _ ∈ s1.header by rw [← hh6]; exact h1) with hx | hx | hx <;>
            simp [startsWithTop] at hx
    have hcols := hfeat (show "date" ∈ s6.header by rw [hh6]; exact hdmem)
    rw [hcols.1] at hcmem
    rw [List.mem_map] at hcmem
    obtain ⟨c0, hc0, heq⟩ := hcmem
    rw [← heq]
    obtain ⟨y, m, d, rfl⟩ := F_date6 hdmem c0 hc0
    exact Or.inr (Or.inl ⟨y, rfl⟩)
  case _ =>
    have hdmem : "date" ∈ s1.header := by
      rcases hfeatmem (Or.inr (Or.inl hmemname)) with h1 | h1
      · rw [← hh6]; exact h1
      · exfalso
        rcases h1 with h1 | h1 | h1 | h1 | h1 <;>
          rcases hschema _ (show _ ∈ s1.header by rw [← hh6]; exact h1) with hx | hx | hx <;>
            simp [startsWithTop] at hx
    have hcols := hfeat (show "date" ∈ s6.header by rw [hh6]; exact hdmem)
    rw [hcols.2.1] at hcmem
    rw [List.mem_map] at hcmem
    obtain ⟨c0, hc0, heq⟩ := hcmem
    rw [← heq]
    obtain ⟨y, m, d, rfl⟩ := F_date6 hdmem c0 hc0
    exact Or.inr (Or.inl ⟨m, rfl⟩)
  case _ =>
    have hdmem : "date" ∈ s1.header := by
      rcases hfeatmem (Or.inr (Or.inr (Or.inl hmemname))) with h1 | h1
      · rw [← hh6]; exact h1
      · exfalso
        rcases h1 with h1 | h1 | h1 | h1 | h1 <;>
          rcases hschema _ (show _ ∈ s1.header by rw [← hh6]; exact h1) with hx | hx | hx <;>
            simp [startsWithTop] at hx
    have hcols := hfeat (show "date" ∈ s6.header by rw [hh6]; exact hdmem)
    rw [hcols.2.2.1] at hcmem
    rw [List.mem_map] at hcmem
    obtain ⟨c0, hc0, heq⟩ := hcmem
    rw [← heq]
    obtain ⟨y, m, d, rfl⟩ := F_date6 hdmem c0 hc0
    exact Or.inr (Or.inl ⟨d, rfl⟩)
  case _ =>
    have hdmem : "date" ∈ s1.header := by
      rcases hfeatmem (Or.inr (Or.inr (Or.inr (Or.inl hmemname)))) with h1 | h1
      · rw [← hh6]; exact h1
      · exfalso
        rcases h1 with h1 | h1 | h1 | h1 | h1 <;>
          rcases hschema _ (show _ ∈ s1.header by rw [← hh6]; exact h1) with hx | hx | hx <;>
            simp [startsWithTop] at hx
    have hcols := hfeat (show "date" ∈ s6.header by rw [hh6]; exact hdmem)
    rw [hcols.2.2.2.1] at hcmem
    rw [List.mem_map] at hcmem
    obtain ⟨c0, hc0, heq⟩ := hcmem
    rw [← heq]
    obtain ⟨y, m, d, rfl⟩ := F_date6 hdmem c0 hc0
    exact Or.inr (Or.inl ⟨dayOfWeekMon0 y m d, rfl⟩)
  case _ =>
    have hdmem : "date" ∈ s1.header := by
      rcases hfeatmem (Or.inr (Or.inr (Or.inr (Or.inr hmemname)))) with h1 | h1
      · rw [← hh6]; exact h1
      · exfalso
        rcases h1 with h1 | h1 | h1 | h1 | h1 <;>
          rcases hschema _ (show _ ∈ s1.header by rw [← hh6]; exact h1) with hx | hx | hx <;>
            simp [startsWithTop] at hx
    have hcols := hfeat (show "date" ∈ s6.header by rw [hh6]; exact hdmem)
    rw [hcols.2.2.2.2] at hcmem
    rw [List.mem_map] at hcmem
    obtain ⟨c0, hc0, heq⟩ := hcmem
    rw [← heq]
    obtain ⟨y, m, d, rfl⟩ := F_date6 hdmem c0 hc0
    exact Or.inr (Or.inl ⟨(m - 1) / 3 + 1, rfl⟩)
  case _ =>
    have hlmem : "label" ∈ s1.header := by
      rcases hsentmem hmemname with h1 | h1
      · exfalso
        rcases hschema _ (show _ ∈ s1.header by rw [← hh6]; exact h1) with hx | hx | hx <;>
          simp [startsWithTop] at hx
      · rw [← hh6]; exact h1
    have hsc := hsent (show "label" ∈ s6.header by rw [hh6]; exact hlmem)
    rw [hsc] at hcmem
    rw [List.mem_map] at hcmem
    obtain ⟨c0, hc0, heq⟩ := hcmem
    rw [← heq]
    rcases F_label hlmem c0 hc0 with rfl | rfl
    · exact Or.inl ⟨"Negativo", rfl⟩
    · exact Or.inl ⟨"Positivo", rfl⟩

/-- Counterexample to C3 as stated: on `df3ce` (one row, label `2`,
valid date) `transform_all` completes, yet the output contains exactly
one null value — the sentiment cell, because the source's
`map({0: 'Negativo', 1: 'Positivo'})` sends any other label to NaN. -/
theorem C3_counterexample :
    (transform_all df3ce).map nullCountDF = .ok 1 ∧
    (transform_all df3ce).map (fun out => getColCells out "sentiment") =
      .ok [Cell.null] := by
  constructor
  · decide
  · decide

/-- Witness for C3 (amended) at the concrete table `df3w`. -/
theorem C3_no_nulls_witness :
    wfDF df3w = true ∧ transform_all df3w = .ok df3wOut ∧
    nullCountDF df3wOut = 0 := by
  have h1 : wfDF df3w = true := by decide
  have h2 : transform_all df3w = .ok df3wOut := by decide
  refine ⟨h1, h2, C3_no_nulls df3w df3wOut h1 h2 ?_ ?_ ?_⟩
  · decide
  · decide
  · decide

/-! ### Claim C8: pipeline idempotence -/

theorem traverseCells_id_of (f : Cell → Except String Cell)
    (cells : List Cell) (h : ∀ c ∈ cells, f c = .ok c) :
    traverseCells f cells = .ok cells := by
  induction cells with
  | nil => rfl
  | cons c cs ih =>
      simp only [traverseCells, h c (by simp),
        ih (fun x hx => h x (by simp [hx]))]

theorem foldl_fixed {α β : Type} (g : β → α → β) (acc : β) (ns : List α)
    (h : ∀ n ∈ ns, g acc n = acc) : ns.foldl g acc = acc := by
  induction ns with
  | nil => rfl
  | cons n t ih =>
      rw [List.foldl_cons, h n (by simp)]
      exact ih (fun x hx => h x (by simp [hx]))

theorem mem_of_colIdx (n : String) (h : List String) (i : Nat)
    (hi : colIdx n h = some i) : n ∈ h := by
  by_contra hc
  rw [(colIdx_eq_none_iff n h).mpr hc] at hi
  cases hi

theorem mem_setColCells_header_mono (df : DataFrame) (n : String)
    (vs : List Cell) (m : String) (hm : m ∈ df.header) :
    m ∈ (setColCells df n vs).header := by
  rcases setColCells_header_cases df n vs with h | h <;> rw [h]
  · exact hm
  · exact List.mem_append.mpr (Or.inl hm)

theorem self_mem_setColCells_header (df : DataFrame) (n : String)
    (vs : List Cell) : n ∈ (setColCells df n vs).header := by
  cases hi : colIdx n df.header with
  | none =>
      rw [setColCells_header_fresh df n vs hi]
      simp
  | some i =>
      rw [setColCells_header_overwrite df n vs i hi]
      exact mem_of_colIdx n df.header i hi

theorem mem_addSentiment_mono (df : DataFrame) (m : String)
    (hm : m ∈ df.header) : m ∈ (addSentiment df).header := by
  unfold addSentiment
  split
  · exact mem_setColCells_header_mono _ _ _ _ hm
  · exact hm

theorem sentiment_mem_addSentiment (df : DataFrame)
    (hl : "label" ∈ df.header) : "sentiment" ∈ (addSentiment df).header := by
  unfold addSentiment
  rw [if_pos hl]
  exact self_mem_setColCells_header _ _ _

theorem toDatetimeCell_ok_self (c : Cell) (h : toDatetimeCell c = .ok c) :
    isDatetimeCell c = true := by
  cases c with
  | null => rfl
  | date y m d => rfl
  | int n => cases h
  | str s =>
      cases hp : parseDate s with
      | none => simp [toDatetimeCell, hp] at h
      | some t =>
          obtain ⟨y, m, d⟩ := t
          simp [toDatetimeCell, hp] at h

theorem create_features_ok_mem (d out : DataFrame)
    (h : create_features d = .ok out) :
    ("date" ∈ d.header →
      "year" ∈ out.header ∧ "month" ∈ out.header ∧ "day" ∈ out.header ∧
      "day_of_week" ∈ out.header ∧ "quarter" ∈ out.header) ∧
    ("label" ∈ d.header → "sentiment" ∈ out.header) := by
  unfold create_features at h
  by_cases hd : "date" ∈ d.header
  · rw [if_pos hd] at h
    by_cases hdt : isDatetimeLike (getColCells d "date") = true
    · rw [if_pos hdt] at h
      rw [Except.ok.injEq] at h
      subst h
      refine ⟨fun _ => ?_, fun hl => ?_⟩
      · refine ⟨?_, ?_, ?_, ?_, ?_⟩ <;>
          apply mem_addSentiment_mono
        · exact mem_setColCells_header_mono _ _ _ _
            (mem_setColCells_header_mono _ _ _ _
              (mem_setColCells_header_mono _ _ _ _
                (mem_setColCells_header_mono _ _ _ _
                  (self_mem_setColCells_header _ _ _))))
        · exact mem_setColCells_header_mono _ _ _ _
            (mem_setColCells_header_mono _ _ _ _
              (mem_setColCells_header_mono _ _ _ _
                (self_mem_setColCells_header _ _ _)))
        · exact mem_setColCells_header_mono _ _ _ _
            (mem_setColCells_header_mono _ _ _ _
              (self_mem_setColCells_header _ _ _))
        · exact mem_setColCells_header_mono _ _ _ _
            (self_mem_setColCells_header _ _ _)
        · exact self_mem_setColCells_header _ _ _
      · apply sentiment_mem_addSentiment
        exact mem_setColCells_header_mono _ _ _ _
          (mem_setColCells_header_mono _ _ _ _
            (mem_setColCells_header_mono _ _ _ _
              (mem_setColCells_header_mono _ _ _ _
                (mem_setColCells_header_mono _ _ _ _ hl))))
    · rw [if_neg hdt] at h
      cases h
  · rw [if_neg hd] at h
    rw [Except.ok.injEq] at h
    subst h
    exact ⟨fun hc => absurd hc hd, fun hl => sentiment_mem_addSentiment d hl⟩

theorem addSentiment_id (df : DataFrame)
    (hsent : "label" ∈ df.header →
      getColCells df "sentiment" =
        (getColCells df "label").map sentimentCell ∧
      "sentiment" ∈ df.header) :
    addSentiment df = df := by
  unfold addSentiment
  by_cases hl : "label" ∈ df.header
  · rw [if_pos hl]
    obtain ⟨heq, hmem⟩ := hsent hl
    obtain ⟨i, hi⟩ := colIdx_isSome_of_mem "sentiment" df.header hmem
    rw [← heq]
    exact setColCells_self df "sentiment" i hi
  · rw [if_neg hl]

theorem create_features_id (df : DataFrame)
    (hdt : "date" ∈ df.header →
      isDatetimeLike (getColCells df "date") = true)
    (hfeat : "date" ∈ df.header →
      getColCells df "year" = (getColCells df "date").map yearCell ∧
      getColCells df "month" = (getColCells df "date").map monthCell ∧
      getColCells df "day" = (getColCells df "date").map dayCell ∧
      getColCells df "day_of_week" = (getColCells df "date").map dowCell ∧
      getColCells df "quarter" = (getColCells df "date").map quarterCell ∧
      "year" ∈ df.header ∧ "month" ∈ df.header ∧ "day" ∈ df.header ∧
      "day_of_week" ∈ df.header ∧ "quarter" ∈ df.header)
    (hsent : "label" ∈ df.header →
      getColCells df "sentiment" =
        (getColCells df "label").map sentimentCell ∧
      "sentiment" ∈ df.header) :
    create_features df = .ok df := by
  unfold create_features
  by_cases hd : "date" ∈ df.header
  · obtain ⟨hy, hmo, hdy, hdw, hq, my, mmo, mdy, mdw, mq⟩ := hfeat hd
    have e1 : setColCells df "year"
        ((getColCells df "date").map yearCell) = df := by
      obtain ⟨i, hi⟩ := colIdx_isSome_of_mem "year" df.header my
      rw [← hy]
      exact setColCells_self df "year" i hi
    have e2 : setColCells df "month"
        ((getColCells df "date").map monthCell) = df := by
      obtain ⟨i, hi⟩ := colIdx_isSome_of_mem "month" df.header mmo
      rw [← hmo]
      exact setColCells_self df "month" i hi
    have e3 : setColCells df "day"
        ((getColCells df "date").map dayCell) = df := by
      obtain ⟨i, hi⟩ := colIdx_isSome_of_mem "day" df.header mdy
      rw [← hdy]
      exact setColCells_self df "day" i hi
    have e4 : setColCells df "day_of_week"
        ((getColCells df "date").map dowCell) = df := by
      obtain ⟨i, hi⟩ := colIdx_isSome_of_mem "day_of_week" df.header mdw
      rw [← hdw]
      exact setColCells_self df "day_of_week" i hi
    have e5 : setColCells df "quarter"
        ((getColCells df "date").map quarterCell) = df := by
      obtain ⟨i, hi⟩ := colIdx_isSome_of_mem "quarter" df.header mq
      rw [← hq]
      exact setColCells_self df "quarter" i hi
    rw [if_pos hd, if_pos (hdt hd)]
    simp only [e1, e2, e3, e4, e5, addSentiment_id df hsent]
  · rw [if_neg hd]
    rw [addSentiment_id df hsent]

theorem convertDateCol_id (df : DataFrame)
    (h : ∀ c ∈ getColCells df "date", toDatetimeCell c = .ok c) :
    convertDateCol df = df := by
  unfold convertDateCol
  by_cases hd : "date" ∈ df.header
  · rw [if_pos hd,
      traverseCells_id_of toDatetimeCell (getColCells df "date") h]
    obtain ⟨i, hi⟩ := colIdx_isSome_of_mem "date" df.header hd
    exact setColCells_self df "date" i hi
  · rw [if_neg hd]

theorem convertLabelCol_id (df : DataFrame)
    (h : ∀ c ∈ getColCells df "label", astypeIntCell c = .ok c) :
    convertLabelCol df = df := by
  unfold convertLabelCol
  by_cases hl : "label" ∈ df.header
  · rw [if_pos hl,
      traverseCells_id_of astypeIntCell (getColCells df "label") h]
    obtain ⟨i, hi⟩ := colIdx_isSome_of_mem "label" df.header hl
    exact setColCells_self df "label" i hi
  · rw [if_neg hl]

/-- **C8 (amended)** — `transform_all` is not idempotent in general (see
the counterexample: headline values that differ only in surrounding
whitespace are deduplicated only on a second run, because the source
trims values *after* dropping duplicates).  Re-running it on a completed
output is the identity when that output satisfies the clean-table
invariants: fixed-point column names, an all-datetime non-null date
column, an all-integer label column, headline cells fixed by both the
text coercion and the strip, zero nulls, no fully-duplicate rows, rows
sorted *strictly* ascending by date, and a contiguous row index.
The date sort is required strict (no two rows share a date) because the
source's `sort_values('date')` uses numpy's default quicksort, which is
not stable: on a block of tied dates re-sorting an already ordered frame
may permute the tied rows, so only on distinct keys — where every
correct sort yields the same unique order — is the re-sort an identity
of the program and not merely of a particular sort algorithm. -/
theorem C8_idempotent_on_clean (df out : DataFrame) (hwf : wfDF df = true)
    (h : transform_all df = .ok out)
    (hnorm : ∀ n ∈ out.header, normalizeName n = n)
    (hdate : ∀ c ∈ getColCells out "date",
      toDatetimeCell c = .ok c ∧ isNullCell c = false)
    (hlab : ∀ c ∈ getColCells out "label", astypeIntCell c = .ok c)
    (htop : ∀ n ∈ out.header, startsWithTop n = true →
      ∀ c ∈ getColCells out n, topConvertCell c = c ∧ stripCell c = c)
    (hnull : nullCountDF out = 0)
    (hdup : (out.rows.map Row.cells).Nodup)
    (hsort : List.Pairwise (fun a b =>
      cellLe (cellAt a ((colIdx "date" out.header).getD 0))
        (cellAt b ((colIdx "date" out.header).getD 0)) = true ∧
      cellLe (cellAt b ((colIdx "date" out.header).getD 0))
        (cellAt a ((colIdx "date" out.header).getD 0)) = false) out.rows)
    (hidx : out.rows.map Row.idx = List.range' 0 out.rows.length) :
    transform_all out = .ok out := by
  unfold transform_all at h
  set s6 := normalize_values (clean_dates (remove_duplicates
    (handle_missing_values (convert_data_types
      (normalize_column_names df))))) with hs6
  have hwf6 : wfDF s6 = true :=
    steps2to6_wf _ (wfDF_normalize_column_names df hwf)
  obtain ⟨hwfo, hoth, hsentF⟩ := create_features_ok_facts s6 out h hwf6
  have hcols := create_features_ok_cols s6 out h hwf6
  have hfm := (create_features_ok_mem s6 out h).1
  have hsm := (create_features_ok_mem s6 out h).2
  have hdOth := hoth "date" (by decide) (by decide) (by decide) (by decide)
    (by decide) (by decide)
  have hlOth := hoth "label" (by decide) (by decide) (by decide) (by decide)
    (by decide) (by decide)
  have e1 : normalize_column_names out = out := by
    unfold normalize_column_names
    rw [list_map_eq_self out.header normalizeName hnorm]
  have edate : convertDateCol out = out :=
    convertDateCol_id out (fun c hc => (hdate c hc).1)
  have elb : convertLabelCol out = out := convertLabelCol_id out hlab
  have e2 : convert_data_types out = out := by
    unfold convert_data_types
    rw [edate, elb]
    apply foldl_fixed
    intro n hn
    simp only [topCols, List.mem_filter] at hn
    exact mapCol_eq_self out n topConvertCell
      (fun c hc => (htop n hn.1 hn.2 c hc).1)
  have e3 : handle_missing_values out = out := by
    simp [handle_missing_values, hnull]
  have e4 : remove_duplicates out = out := by
    unfold remove_duplicates
    rw [dedupRowsAux_nodup_id [] out.rows hdup (by intro r _; simp)]
  have e5 : clean_dates out = out := by
    unfold clean_dates
    cases hi : colIdx "date" out.header with
    | none => rfl
    | some i =>
        have hkeep : out.rows.filter
            (fun r => !isNullCell (cellAt r i)) = out.rows := by
          apply List.filter_eq_self.mpr
          intro r hr
          have hc : cellAt r i ∈ getColCells out "date" := by
            simp only [getColCells, hi]
            exact List.mem_map.mpr ⟨r, hr, rfl⟩
          rw [(hdate _ hc).2]
          rfl
        rw [hi] at hsort
        have hsort1 : List.Pairwise
            (fun a b => cellLe (cellAt a i) (cellAt b i) = true)
            out.rows := hsort.imp (fun hab => hab.1)
        have hss : List.insertionSort
            (fun a b => cellLe (cellAt a i) (cellAt b i) = true)
            out.rows = out.rows :=
          List.Sorted.insertionSort_eq hsort1
        simp only [hkeep, hss, resetIndexAux_id 0 out.rows hidx]
  have e6 : normalize_values out = out := by
    unfold normalize_values
    apply foldl_fixed
    intro n hn
    simp only [topCols, List.mem_filter] at hn
    exact mapCol_eq_self out n stripCell
      (fun c hc => (htop n hn.1 hn.2 c hc).2)
  have e7 : create_features out = .ok out := by
    apply create_features_id
    · intro _
      rw [isDatetimeLike_iff]
      intro c hc
      exact toDatetimeCell_ok_self c (hdate c hc).1
    · intro hd
      have hd6 : "date" ∈ s6.header := hdOth.1.mp hd
      have hdateEq : getColCells out "date" = getColCells s6 "date" :=
        hdOth.2
      obtain ⟨hy, hmo, hdy, hdw, hq⟩ := hcols.2.2.1 hd6
      obtain ⟨my, mmo, mdy, mdw, mq⟩ := hfm hd6
      exact ⟨by rw [hdateEq]; exact hy, by rw [hdateEq]; exact hmo,
        by rw [hdateEq]; exact hdy, by rw [hdateEq]; exact hdw,
        by rw [hdateEq]; exact hq, my, mmo, mdy, mdw, mq⟩
    · intro hl
      have hl6 : "label" ∈ s6.header := hlOth.1.mp hl
      exact ⟨hsentF hl6, hsm hl6⟩
  unfold transform_all
  rw [e1, e2, e3, e4, e5, e6]
  exact e7

/-- Counterexample to C8 as stated: on `df8ce` the first run keeps both
rows (their `top1` cells `"a"` and `"a "` differ when duplicates are
dropped) and only then trims them to equality, so the second run removes
a row — `transform_all ∘ transform_all ≠ transform_all` at `df8ce`. -/
theorem C8_counterexample :
    (transform_all df8ce).map (fun o => o.rows.length) = .ok 2 ∧
    ((transform_all df8ce).bind transform_all).map
      (fun o => o.rows.length) = .ok 1 ∧
    (transform_all df8ce).bind transform_all ≠ transform_all df8ce := by
  refine ⟨by decide, by decide, by decide⟩

/-- Witness for C8 (amended) at the concrete table `df8w`, whose output
`df8wOut` satisfies all the clean-table invariants. -/
theorem C8_idempotent_on_clean_witness :
    wfDF df8w = true ∧ transform_all df8w = .ok df8wOut ∧
    transform_all df8wOut = .ok df8wOut := by
  have h1 : wfDF df8w = true := by decide
  have h2 : transform_all df8w = .ok df8wOut := by decide
  refine ⟨h1, h2, C8_idempotent_on_clean df8w df8wOut h1 h2
    ?_ ?_ ?_ ?_ ?_ ?_ ?_ ?_⟩ <;> decide
